import Mathlib

/-!
# Verification of the `mess` chess engine core (`src/chess/`)

A shallow embedding of the engine's position type, FEN serialization and
legal move generator, translated from the Rust sources (`board.rs`,
`fen.rs`, `mailbox.rs`, `square.rs`, `piece.rs`, `move.rs`).  The crate
modules `bitboard.rs`, `color.rs`, `castling.rs`, `moves.rs` and
`zobrist.rs` are declared in `mod.rs` but their sources are not part of
the excerpt; those primitives are modelled from the specification and
carry a `Modelled from the spec:` note.

Machine integers become `Nat` with explicit wrap-around (`% 2^64`) where
the source relies on it; 64-bit bitboards are `Nat` values whose bit `i`
is square `i` (A8 = 0 … H1 = 63, as in `square.rs`).
-/

/-- 2^64, the modulus of the engine's `u64` arithmetic. -/
def U64 : Nat := 18446744073709551616

/-- `BitBoard::UNIVERSE`: all 64 squares set. -/
def BitBoard.UNIVERSE : Nat := 18446744073709551615

/-- `BitBoard::EMPTY`. -/
def BitBoard.EMPTY : Nat := 0

/-- Modelled from the spec: `BitBoard::from(square)`, the singleton set
(the table is only defined for real squares; the sentinel yields the
empty set). -/
def bitSq (sq : Nat) : Nat := if sq < 64 then 1 <<< sq else 0

/-- Modelled from the spec: bitwise complement of a `u64` bitboard
(`Not` on `BitBoard`). -/
def compl64 (b : Nat) : Nat := b ^^^ BitBoard.UNIVERSE

/-- Modelled from the spec: `BitBoard` set difference (`Sub` on
`BitBoard`): the elements of `a` not in `b`. -/
def BitBoard.diff (a b : Nat) : Nat := a &&& compl64 b

/-- Modelled from the spec: `BitBoard::is_disjoint`. -/
def BitBoard.is_disjoint (a b : Nat) : Bool := a &&& b == 0

/-- Modelled from the spec: `BitBoard::contains`. -/
def BitBoard.contains (b sq : Nat) : Bool := b.testBit sq

/-- Fuel-driven population count helper. -/
def popcntAux : Nat → Nat → Nat
  | 0, _ => 0
  | fuel + 1, b => if b = 0 then 0 else b % 2 + popcntAux fuel (b / 2)

/-- Modelled from the spec: `BitBoard::popcnt`. -/
def BitBoard.popcnt (b : Nat) : Nat := popcntAux 64 b

/-- Fuel-driven least-significant-bit scan; returns 64 (the `Square::None`
sentinel) on the empty bitboard. -/
def lsbAux : Nat → Nat → Nat → Nat
  | 0, _, _ => 64
  | fuel + 1, b, i => if b.testBit i then i else lsbAux fuel b (i + 1)

/-- Modelled from the spec: `BitBoard::lsb`; the lowest set square, or the
`Square::None` index 64 when empty. -/
def BitBoard.lsb (b : Nat) : Nat := lsbAux 64 b 0

/-- Modelled from the spec: `BitBoard::iter` yields the set squares in
ascending index order; we materialise that order as a list. -/
def BitBoard.squares (b : Nat) : List Nat :=
  (List.range 64).filter (fun i => b.testBit i)

/-- Modelled from the spec: `BitBoard::up(color)` shifts one rank north
for White (index − 8) and one rank south for Black (index + 8),
discarding squares that fall off the board. -/
def BitBoard.up (b : Nat) (color : Nat) : Nat :=
  if color = 0 then b >>> 8 else (b <<< 8) % U64

/-- Modelled from the spec: `BitBoard::rank(r)`: the eight squares of the
rank with index `r` (rank index 0 is rank 8, squares 0–7). -/
def BitBoard.rank (r : Nat) : Nat := 255 <<< (8 * r)

/-- `Square::file` (`square.rs`): file index 0–7, A–H. -/
def fileOf (sq : Nat) : Nat := sq % 8

/-- `Square::rank` (`square.rs`): rank index 0–7, rank 8 downwards. -/
def rankOf (sq : Nat) : Nat := sq / 8

/-- `Square::south` for White / `Square::north` for Black: `Square::down`
from `square.rs` on a square index. -/
def Square.down (sq : Nat) (color : Nat) : Nat :=
  if color = 0 then sq + 8 else sq - 8

/-- `Square::distance` (`square.rs`): Chebyshev distance. -/
def Square.distance (a b : Nat) : Nat :=
  max (max (rankOf a - rankOf b) (rankOf b - rankOf a))
    (max (fileOf a - fileOf b) (fileOf b - fileOf a))

/-- `Rank::relative` (`square.rs`) on a rank index: identity for White,
`7 - r` for Black. -/
def Rank.relative (r : Nat) (color : Nat) : Nat :=
  if color = 0 then r else 7 - r

/-- Move one step on the board by a (file, rank) delta, or `none` when the
step crosses the board edge.  Shared geometry of the modelled attack
tables. -/
def offsetSq (sq : Nat) (df dr : Int) : Option Nat :=
  let f : Int := (fileOf sq : Int) + df
  let r : Int := (rankOf sq : Int) + dr
  if 0 ≤ f ∧ f < 8 ∧ 0 ≤ r ∧ r < 8 ∧ sq < 64 then some (r.toNat * 8 + f.toNat)
  else none

/-- Collect the target squares of a list of one-step deltas. -/
def deltaAttacks (sq : Nat) (ds : List (Int × Int)) : Nat :=
  ds.foldl
    (fun acc d =>
      match offsetSq sq d.1 d.2 with
      | some t => acc ||| (1 <<< t)
      | none => acc)
    0

/-- Modelled from the spec: `moves::pawn_attacks(square, color)`, the two
diagonal attack squares of a pawn (White attacks north, rank index − 1). -/
def pawn_attacks (sq : Nat) (color : Nat) : Nat :=
  if color = 0 then deltaAttacks sq [(-1, -1), (1, -1)]
  else deltaAttacks sq [(-1, 1), (1, 1)]

/-- Modelled from the spec: `moves::knight(square)`. -/
def knightAttacks (sq : Nat) : Nat :=
  deltaAttacks sq [(-2, -1), (-2, 1), (-1, -2), (-1, 2), (1, -2), (1, 2), (2, -1), (2, 1)]

/-- Modelled from the spec: `moves::king(square)`. -/
def kingAttacks (sq : Nat) : Nat :=
  deltaAttacks sq [(-1, -1), (-1, 0), (-1, 1), (0, -1), (0, 1), (1, -1), (1, 0), (1, 1)]

/-- One ray of a slider attack: walk from `cur` by `(df, dr)`, include the
first blocker of `occ` and stop there. -/
def rayAux (fuel : Nat) (cur : Nat) (df dr : Int) (occ : Nat) : Nat :=
  match fuel with
  | 0 => 0
  | fuel + 1 =>
    match offsetSq cur df dr with
    | none => 0
    | some n => (1 <<< n) ||| (if occ.testBit n then 0 else rayAux fuel n df dr occ)

/-- Modelled from the spec: `moves::bishop(square, occupancy)`: ray scan
on the four diagonals, including the first blocker of each ray. -/
def bishopAttacks (sq occ : Nat) : Nat :=
  rayAux 7 sq 1 1 occ ||| rayAux 7 sq 1 (-1) occ |||
    rayAux 7 sq (-1) 1 occ ||| rayAux 7 sq (-1) (-1) occ

/-- Modelled from the spec: `moves::rook(square, occupancy)`. -/
def rookAttacks (sq occ : Nat) : Nat :=
  rayAux 7 sq 1 0 occ ||| rayAux 7 sq (-1) 0 occ |||
    rayAux 7 sq 0 1 occ ||| rayAux 7 sq 0 (-1) occ

/-- Modelled from the spec: `moves::queen(square, occupancy)`. -/
def queenAttacks (sq occ : Nat) : Nat :=
  bishopAttacks sq occ ||| rookAttacks sq occ

/-- Sign of the difference of two `Nat`s, as a step direction. -/
def stepDir (a b : Nat) : Int :=
  if a < b then 1 else if b < a then -1 else 0

/-- Walk from `cur` towards `target` collecting strictly-between squares. -/
def betweenWalk (fuel : Nat) (cur target : Nat) (df dr : Int) : Nat :=
  match fuel with
  | 0 => 0
  | fuel + 1 =>
    match offsetSq cur df dr with
    | none => 0
    | some n => if n = target then 0 else (1 <<< n) ||| betweenWalk fuel n target df dr

/-- Modelled from the spec: `BitBoard::between(s1, s2)`: the squares
strictly between two squares along a shared rank, file or diagonal, and
the empty set when the squares are not colinear (in particular for the
`Square::None` sentinel). -/
def BitBoard.between (s1 s2 : Nat) : Nat :=
  if s1 < 64 ∧ s2 < 64 ∧ s1 ≠ s2 then
    let df := stepDir (fileOf s1) (fileOf s2)
    let dr := stepDir (rankOf s1) (rankOf s2)
    let fd := max (fileOf s1 - fileOf s2) (fileOf s2 - fileOf s1)
    let rd := max (rankOf s1 - rankOf s2) (rankOf s2 - rankOf s1)
    if fd = 0 ∨ rd = 0 ∨ fd = rd then betweenWalk 8 s1 s2 df dr else 0
  else 0

/-! ## Zobrist hashing (`zobrist.rs`, modelled from the spec) -/

/-- SplitMix64 output mixing on a 64-bit state. -/
def zmix (z0 : Nat) : Nat :=
  let z1 := ((z0 ^^^ (z0 >>> 30)) * 13787848793156543929) % U64
  let z2 := ((z1 ^^^ (z1 >>> 27)) * 10723151780598845931) % U64
  z2 ^^^ (z2 >>> 31)

/-- Modelled from the spec: the process-wide Zobrist key table, populated
from a deterministic seeded PRNG (SplitMix64 with a fixed seed); entry
`i` of the table. -/
def zobristKey (i : Nat) : Nat :=
  zmix ((74726582743453 + (i + 1) * 11400714819323198485) % U64)

/-- Modelled from the spec: `zobrist::piece_square_key(piece, square)`
(12 × 64 keys). -/
def zobrist.piece_square_key (piece sq : Nat) : Nat := zobristKey (piece * 64 + sq)

/-- Modelled from the spec: `zobrist::side_to_move_key()`. -/
def zobrist.side_to_move_key : Nat := zobristKey 768

/-- Modelled from the spec: `zobrist::en_passant_key(square)`, keyed on
the square's file. -/
def zobrist.en_passant_key (sq : Nat) : Nat := zobristKey (769 + fileOf sq)

/-- Modelled from the spec: `zobrist::castling_rights_key(rights)`
(16 combinations). -/
def zobrist.castling_rights_key (rights : Nat) : Nat := zobristKey (777 + rights % 16)

/-! ## Pieces and colors (`piece.rs`; `color.rs` modelled from the spec)

`Color`: White = 0, Black = 1, None = 2.  `Piece`: Pawn = 0 … King = 5,
None = 6.  `ColoredPiece`: WhitePawn = 0 … BlackKing = 11, None = 12. -/

/-- Modelled from the spec: `Not` on `Color` swaps White and Black. -/
def Color.flip (c : Nat) : Nat := 1 - c

/-- `ColoredPiece::new(piece, color)` (`piece.rs`), translated verbatim:
the source computes `color as usize * 2 + piece as usize` (note the
factor 2, not `Piece::N` = 6). -/
def ColoredPiece.new (piece color : Nat) : Nat := color * 2 + piece

/-- `ColoredPiece::piece` (`piece.rs`): `self % Piece::N`, with the
sentinel mapped to `Piece::None`. -/
def ColoredPiece.pieceOf (cp : Nat) : Nat := if cp = 12 then 6 else cp % 6

/-- `ColoredPiece::color` (`piece.rs`): `self / Piece::N`. -/
def ColoredPiece.colorOf (cp : Nat) : Nat := cp / 6

/-- `ColoredPiece::is(piece)` (`piece.rs`). -/
def ColoredPiece.is (cp piece : Nat) : Bool := ColoredPiece.pieceOf cp == piece

/-! ## Castling metadata (`castling.rs`, modelled from the spec)

`castling::Rights` is a 4-bit mask over (color, side) pairs; we fix the
bit layout White-H = 1, White-A = 2, Black-H = 4, Black-A = 8.  The
`castling::Info` built by `Info::from_squares(E1, H, A, E8, H, A)` in
`From<FEN> for Board` is the standard-chess one and is immutable except
for its `rights` field, which we store directly on the board. -/

def castling.Rights.WH : Nat := 1

def castling.Rights.WA : Nat := 2

def castling.Rights.BH : Nat := 4

def castling.Rights.BA : Nat := 8

/-- Modelled from the spec: union of castling rights (`Add` on
`Rights`). -/
def castling.Rights.plus (a b : Nat) : Nat := a ||| b

/-- Modelled from the spec: difference of castling rights (`Sub` on
`Rights`). -/
def castling.Rights.minus (a b : Nat) : Nat := a &&& (15 ^^^ b)

/-- Modelled from the spec: `Rights::has(side_color)` where the
(color, side) pair is given as its rights bit. -/
def castling.Rights.has (r bit : Nat) : Bool := r &&& bit != 0

/-- Modelled from the spec: `Info::get_updates(square)`, the rights
revoked when a piece moves from or to that square (standard chess:
king and rook start squares). -/
def castling.get_updates (sq : Nat) : Nat :=
  if sq = 60 then castling.Rights.WH ||| castling.Rights.WA
  else if sq = 63 then castling.Rights.WH
  else if sq = 56 then castling.Rights.WA
  else if sq = 4 then castling.Rights.BH ||| castling.Rights.BA
  else if sq = 7 then castling.Rights.BH
  else if sq = 0 then castling.Rights.BA
  else 0

/-- Modelled from the spec: `Info::path(side_color)`: the squares that
must be empty and not attacked for that castling (standard chess; the
king and rook start squares themselves are not part of the path). -/
def castling.path (color side : Nat) : Nat :=
  if color = 0 then
    if side = 0 then bitSq 57 ||| bitSq 58 ||| bitSq 59 else bitSq 61 ||| bitSq 62
  else
    if side = 0 then bitSq 1 ||| bitSq 2 ||| bitSq 3 else bitSq 5 ||| bitSq 6

/-- Modelled from the spec: the rook start square of a (color, side)
castling (`Info::rook`). -/
def castling.rookSq (color side : Nat) : Nat :=
  if color = 0 then (if side = 0 then 56 else 63) else (if side = 0 then 0 else 7)

/-- Modelled from the spec: the rights bit of a (color, side) pair
(side 0 = A-side, side 1 = H-side). -/
def castling.rightsBit (color side : Nat) : Nat :=
  if color = 0 then (if side = 0 then castling.Rights.WA else castling.Rights.WH)
  else (if side = 0 then castling.Rights.BA else castling.Rights.BH)

/-- Modelled from the spec: `SideColor::from_sqs(king_source, rook_target)`
followed by `get_targets()`: the final (king, rook) squares of the
castling encoded as king-takes-own-rook. -/
def castling.targets_from_sqs (source target : Nat) : Nat × Nat :=
  if rankOf source = 7 then
    if fileOf target < fileOf source then (58, 59) else (62, 61)
  else
    if fileOf target < fileOf source then (2, 3) else (6, 5)

/-! ## Move encoding (`move.rs`) -/

/-- `Move::new` (`move.rs`): flag in bits 14–15, source in bits 0–5,
target in bits 6–11. -/
def Move.new (source target flag : Nat) : Nat :=
  (flag <<< 14) ||| source ||| (target <<< 6)

/-- `Move::new_with_promotion` (`move.rs`): promotion piece minus one in
bits 12–13, flag `Promotion` (2) in bits 14–15. -/
def Move.new_with_promotion (source target promotion : Nat) : Nat :=
  ((promotion - 1) <<< 12) ||| (2 <<< 14) ||| source ||| (target <<< 6)

/-- `Move::source` (`move.rs`). -/
def Move.source (m : Nat) : Nat := m &&& 63

/-- `Move::target` (`move.rs`). -/
def Move.target (m : Nat) : Nat := (m >>> 6) &&& 63

/-- `Move::promot` (`move.rs`): the two promotion bits plus one. -/
def Move.promot (m : Nat) : Nat := ((m >>> 12) &&& 3) + 1

/-- `Move::flags` (`move.rs`): 0 = Normal, 1 = Castle, 2 = Promotion,
3 = EnPassant. -/
def Move.flags (m : Nat) : Nat := (m >>> 14) &&& 3

/-! ## Board state (`board.rs`) -/

/-- `BoardState` (`board.rs`): the history entry snapshotted by
`make_move`.  Field defaults match `#[derive(Default)]`. -/
structure BoardState where
  played_move : Nat := 0
  captured_piece : Nat := 12
  castling_r : Nat := 0
  enp_target : Nat := 64
  draw_clock : Nat := 0
  hash : Nat := 0
deriving DecidableEq, Repr, Inhabited

/-- `Board` (`board.rs`).  The immutable part of `castling_square_info`
is the standard-chess metadata modelled above; its mutable `rights`
field is stored here as `castling_rights`.  The history buffer
`[BoardState; 1024]` is a 1024-entry list. -/
structure Board where
  mailbox : List Nat
  color_bbs : List Nat
  piece_bbs : List Nat
  friends : Nat
  enemies : Nat
  occupied : Nat
  checkers : Nat
  check_nm : Nat
  side_to_mv : Nat
  plys_count : Nat
  draw_clock : Nat
  enp_target : Nat
  is_fischer_random : Bool
  castling_rights : Nat
  hash : Nat
  history : List BoardState
  check_mask : Nat
  pin_mask_l : Nat
  pin_mask_d : Nat
  targets : Nat
  threats : Nat
  move_list : List Nat
deriving DecidableEq, Repr, Inhabited

/-- `Board::piece_bb` (`board.rs`). -/
def Board.piece_bb (b : Board) (piece : Nat) : Nat := b.piece_bbs.getD piece 0

/-- `Board::color_bb` (`board.rs`). -/
def Board.color_bb (b : Board) (color : Nat) : Nat := b.color_bbs.getD color 0

/-- `Board::piece_color_bb` (`board.rs`). -/
def Board.piece_color_bb (b : Board) (piece color : Nat) : Nat :=
  b.piece_bb piece &&& b.color_bb color

/-- `Board::piece_at` (`board.rs`): mailbox lookup. -/
def Board.piece_at (b : Board) (at_ : Nat) : Nat := b.mailbox.getD at_ 12

/-- Set a bit in the bitboard at a list index (`BitBoard::insert` on an
array slot). -/
def bbsInsert (bbs : List Nat) (idx sq : Nat) : List Nat :=
  bbs.set idx (bbs.getD idx 0 ||| bitSq sq)

/-- Clear a bit in the bitboard at a list index (`BitBoard::remove` on an
array slot). -/
def bbsRemove (bbs : List Nat) (idx sq : Nat) : List Nat :=
  bbs.set idx (BitBoard.diff (bbs.getD idx 0) (bitSq sq))

/-- `Board::insert_piece` (`board.rs`): write the mailbox, set the piece
and color bitboard bits, and XOR the piece-square key into the hash. -/
def Board.insert_piece (b : Board) (square piece : Nat) : Board :=
  { b with
    mailbox := b.mailbox.set square piece
    piece_bbs := bbsInsert b.piece_bbs (ColoredPiece.pieceOf piece) square
    color_bbs := bbsInsert b.color_bbs (ColoredPiece.colorOf piece) square
    hash := b.hash ^^^ zobrist.piece_square_key piece square }

/-- `Board::remove_piece` (`board.rs`). -/
def Board.remove_piece (b : Board) (square : Nat) : Board :=
  let piece := b.piece_at square
  { b with
    mailbox := b.mailbox.set square 12
    piece_bbs := bbsRemove b.piece_bbs (ColoredPiece.pieceOf piece) square
    color_bbs := bbsRemove b.color_bbs (ColoredPiece.colorOf piece) square
    hash := b.hash ^^^ zobrist.piece_square_key piece square }

/-- `Board::is_check` (`board.rs`): `!self.checkers.is_empty()`. -/
def Board.is_check (b : Board) : Bool := !(b.checkers == 0)

/-- `Board::generate_check_masks` (`board.rs`): recompute `checkers`,
`check_nm` and `check_mask` for the side to move. -/
def Board.generate_check_masks (b : Board) : Board :=
  let king := BitBoard.lsb (b.piece_bb 5 &&& b.friends)
  let blockers := BitBoard.diff b.occupied (bitSq king)
  let p := b.piece_bb 0 &&& b.enemies
  let n := b.piece_bb 1 &&& b.enemies
  let bb := b.piece_bb 2 &&& b.enemies
  let r := b.piece_bb 3 &&& b.enemies
  let q := b.piece_bb 4 &&& b.enemies
  let checking_p := p &&& pawn_attacks king b.side_to_mv
  let checking_n := n &&& knightAttacks king
  let checking_b := (bb ||| q) &&& bishopAttacks king blockers
  let checking_r := (r ||| q) &&& rookAttacks king blockers
  let checkers := checking_p ||| checking_n ||| checking_b ||| checking_r
  let check_nm := BitBoard.popcnt checkers
  let check_mask :=
    if check_nm = 2 then BitBoard.EMPTY
    else if check_nm = 0 then BitBoard.UNIVERSE
    else
      (checking_p ||| checking_n) |||
        (checking_b ||| BitBoard.between king (BitBoard.lsb checking_b)) |||
        (checking_r ||| BitBoard.between king (BitBoard.lsb checking_r))
  { b with checkers := checkers, check_nm := check_nm, check_mask := check_mask }

/-- `Board::generate_pin_masks` (`board.rs`): the line and diagonal pin
masks relative to the side to move's king. -/
def Board.generate_pin_masks (b : Board) : Board :=
  let king := BitBoard.lsb (b.piece_bb 5 &&& b.friends)
  let bsh := b.piece_bb 2 &&& b.enemies
  let r := b.piece_bb 3 &&& b.enemies
  let q := b.piece_bb 4 &&& b.enemies
  let pinning_l := (r ||| q) &&& rookAttacks king b.enemies
  let pinning_d := (bsh ||| q) &&& bishopAttacks king b.enemies
  let pin_mask_l :=
    (BitBoard.squares pinning_l).foldl
      (fun acc rook =>
        let possible_pin := BitBoard.between king rook
        if BitBoard.popcnt (b.friends &&& possible_pin) = 1 then
          acc ||| possible_pin ||| bitSq rook
        else acc)
      BitBoard.EMPTY
  let pin_mask_d :=
    (BitBoard.squares pinning_d).foldl
      (fun acc bishop =>
        let possible_pin := BitBoard.between king bishop
        if BitBoard.popcnt (b.friends &&& possible_pin) = 1 then
          acc ||| possible_pin ||| bitSq bishop
        else acc)
      BitBoard.EMPTY
  { b with pin_mask_l := pin_mask_l, pin_mask_d := pin_mask_d }

/-- `Board::generate_threats` (`board.rs`): all squares attacked by the
opponent, with the friendly king removed from the blockers. -/
def Board.generate_threats (b : Board) : Board :=
  let xtm := Color.flip b.side_to_mv
  let t0 := BitBoard.EMPTY
  let t1 :=
    (BitBoard.squares (b.piece_color_bb 0 xtm)).foldl
      (fun acc pawn => acc ||| pawn_attacks pawn xtm) t0
  let t2 :=
    (BitBoard.squares (b.piece_color_bb 1 xtm)).foldl
      (fun acc knight => acc ||| knightAttacks knight) t1
  let blockers := b.occupied ^^^ (b.piece_bb 5 &&& b.friends)
  let t3 :=
    (BitBoard.squares (b.piece_color_bb 2 xtm)).foldl
      (fun acc bishop => acc ||| bishopAttacks bishop blockers) t2
  let t4 :=
    (BitBoard.squares (b.piece_color_bb 3 xtm)).foldl
      (fun acc rook => acc ||| rookAttacks rook blockers) t3
  let t5 :=
    (BitBoard.squares (b.piece_color_bb 4 xtm)).foldl
      (fun acc queen => acc ||| queenAttacks queen blockers) t4
  let t6 := t5 ||| kingAttacks (BitBoard.lsb (b.piece_color_bb 5 xtm))
  { b with threats := t6 }

/-! ## FEN record and board construction (`fen.rs`, `board.rs`) -/

/-- The `FEN` struct (`fen.rs`). -/
structure FEN where
  position : List Nat
  side_to_move : Nat
  castling_rights : Nat
  en_pass_square : Nat
  half_move_clock : Nat
  full_move_count : Nat
deriving DecidableEq, Repr, Inhabited

/-- `impl From<FEN> for Board` (`board.rs`): build the bitboards and the
Zobrist hash from the parsed mailbox, then compute the check masks.
`Info::from_squares` hard-codes the standard castling metadata, and its
`rights` start as all four rights. -/
def Board.from_fen (fen : FEN) : Board :=
  let b0 : Board :=
    { mailbox := fen.position
      piece_bbs := List.replicate 6 BitBoard.EMPTY
      color_bbs := List.replicate 2 BitBoard.EMPTY
      friends := BitBoard.EMPTY
      enemies := BitBoard.EMPTY
      occupied := BitBoard.EMPTY
      checkers := BitBoard.EMPTY
      check_nm := 0
      side_to_mv := fen.side_to_move
      plys_count := (fen.full_move_count - 1) * 2 + fen.side_to_move
      draw_clock := fen.half_move_clock
      enp_target := fen.en_pass_square
      is_fischer_random := false
      hash := zobrist.castling_rights_key fen.castling_rights
      castling_rights := 15
      history := List.replicate 1024 {}
      check_mask := BitBoard.EMPTY
      pin_mask_l := BitBoard.EMPTY
      pin_mask_d := BitBoard.EMPTY
      targets := BitBoard.EMPTY
      threats := BitBoard.EMPTY
      move_list := [] }
  let b1 :=
    (List.range 64).foldl
      (fun b square =>
        let piece := b.piece_at square
        if piece = 12 then b
        else
          { b with
            piece_bbs := bbsInsert b.piece_bbs (ColoredPiece.pieceOf piece) square
            color_bbs := bbsInsert b.color_bbs (ColoredPiece.colorOf piece) square
            hash := b.hash ^^^ zobrist.piece_square_key piece square })
      b0
  let b2 :=
    if b1.side_to_mv = 1 then { b1 with hash := b1.hash ^^^ zobrist.side_to_move_key }
    else b1
  let b3 :=
    if b2.enp_target ≠ 64 then
      { b2 with hash := b2.hash ^^^ zobrist.en_passant_key b2.enp_target }
    else b2
  let b4 :=
    { b3 with
      friends := b3.color_bb b3.side_to_mv
      enemies := b3.color_bb (Color.flip b3.side_to_mv)
      occupied := b3.color_bb b3.side_to_mv ||| b3.color_bb (Color.flip b3.side_to_mv) }
  b4.generate_check_masks

/-! ## Make and unmake (`board.rs`) -/

/-- `Board::make_move` (`board.rs`).  Mirrors the source step by step,
including the history-entry cache keyed on the stored hash and the use
of the (inconsistent) `ColoredPiece::new` in the promotion arm. -/
def Board.make_move (b : Board) (chessmove : Nat) : Board :=
  let source := Move.source chessmove
  let target := Move.target chessmove
  let flag := Move.flags chessmove
  let source_piece := b.piece_at source
  let target_piece := b.piece_at target
  let is_capture := target_piece ≠ 12
  let b :=
    if (b.history.getD b.plys_count {}).hash ≠ b.hash then
      { b with
        history := b.history.set b.plys_count
          { played_move := chessmove
            captured_piece := target_piece
            castling_r := b.castling_rights
            enp_target := b.enp_target
            draw_clock := b.draw_clock
            hash := b.hash } }
    else
      { b with
        history := b.history.set b.plys_count
          { b.history.getD b.plys_count {} with
            played_move := chessmove
            captured_piece := target_piece } }
  let b := b.remove_piece source
  let b :=
    { b with
      draw_clock :=
        if is_capture ∨ ColoredPiece.is source_piece 0 then 0 else b.draw_clock + 1 }
  let b :=
    if b.enp_target ≠ 64 then
      { b with hash := b.hash ^^^ zobrist.en_passant_key b.enp_target, enp_target := 64 }
    else b
  let b :=
    { b with
      castling_rights :=
        castling.Rights.minus
          (castling.Rights.minus b.castling_rights (castling.get_updates source))
          (castling.get_updates target) }
  let b := if is_capture then b.remove_piece target else b
  let b :=
    if flag = 2 then
      b.insert_piece target (ColoredPiece.new (Move.promot chessmove) b.side_to_mv)
    else if flag = 1 then
      let kr := castling.targets_from_sqs source target
      (b.insert_piece kr.1 source_piece).insert_piece kr.2 target_piece
    else if flag = 3 then
      (b.remove_piece (Square.down target b.side_to_mv)).insert_piece target source_piece
    else
      let b := b.insert_piece target source_piece
      if ColoredPiece.is source_piece 0 then
        let ep_target := Square.down target b.side_to_mv
        if Square.distance target source = 2 ∧
            ¬ BitBoard.is_disjoint (pawn_attacks ep_target b.side_to_mv)
              (b.piece_color_bb 0 (Color.flip b.side_to_mv)) then
          { b with
            enp_target := ep_target
            hash := b.hash ^^^ zobrist.en_passant_key ep_target }
        else b
      else b
  let b :=
    { b with
      plys_count := b.plys_count + 1
      side_to_mv := Color.flip b.side_to_mv
      hash := b.hash ^^^ zobrist.side_to_move_key }
  let b :=
    { b with
      friends := b.color_bb b.side_to_mv
      enemies := b.color_bb (Color.flip b.side_to_mv)
      occupied := b.color_bb b.side_to_mv ||| b.color_bb (Color.flip b.side_to_mv) }
  b.generate_check_masks

/-- `Board::undo_move` (`board.rs`).  Note the en-passant and promotion
arms rebuild the restored piece with the same `ColoredPiece::new`. -/
def Board.undo_move (b : Board) : Board :=
  let previous_state := b.history.getD (b.plys_count - 1) {}
  let chessmove := previous_state.played_move
  let source := Move.source chessmove
  let target := Move.target chessmove
  let flag := Move.flags chessmove
  let target_piece := b.piece_at target
  let b := { b with plys_count := b.plys_count - 1, side_to_mv := Color.flip b.side_to_mv }
  let sp_b : Nat × Board :=
    if flag = 1 then
      let kr := castling.targets_from_sqs source target
      (b.piece_at kr.1, (b.remove_piece kr.1).remove_piece kr.2)
    else if flag = 3 then
      (target_piece,
        (b.remove_piece target).insert_piece (Square.down target b.side_to_mv)
          (ColoredPiece.new 0 (Color.flip b.side_to_mv)))
    else if flag = 2 then
      (ColoredPiece.new 0 (ColoredPiece.colorOf target_piece), b.remove_piece target)
    else
      (target_piece, b.remove_piece target)
  let source_piece := sp_b.1
  let b := sp_b.2
  let b :=
    if previous_state.captured_piece ≠ 12 then
      b.insert_piece target previous_state.captured_piece
    else b
  let b := b.insert_piece source source_piece
  let b :=
    { b with
      enp_target := previous_state.enp_target
      castling_rights := previous_state.castling_r
      draw_clock := previous_state.draw_clock
      hash := previous_state.hash }
  let b :=
    { b with
      friends := b.color_bb b.side_to_mv
      enemies := b.color_bb (Color.flip b.side_to_mv)
      occupied := b.color_bb b.side_to_mv ||| b.color_bb (Color.flip b.side_to_mv) }
  b.generate_check_masks

/-! ## Legal move generation (`board.rs`) -/

/-- `Board::serialize_moves` (`board.rs`): intersect the candidate
targets with the target filter and the check mask and emit `Normal`
moves; the pushes onto `move_list` become a list. -/
def Board.serialize_moves_list (b : Board) (source things : Nat) : List Nat :=
  (BitBoard.squares (things &&& b.targets &&& b.check_mask)).map
    (fun target => Move.new source target 0)

/-- `Board::serialize_king_moves` (`board.rs`): king targets are filtered
by the target filter and the threat mask (not the check mask). -/
def Board.serialize_king_moves_list (b : Board) (source things : Nat) : List Nat :=
  (BitBoard.squares (BitBoard.diff (things &&& b.targets) b.threats)).map
    (fun target => Move.new source target 0)

/-- `Board::generate_king_moves` (`board.rs`), as the emitted list. -/
def Board.king_move_list (b : Board) : List Nat :=
  let king := BitBoard.lsb (b.piece_color_bb 5 b.side_to_mv)
  b.serialize_king_moves_list king (kingAttacks king)

/-- `Board::serialize_pawn_push` (`board.rs`): promotions (queen if
noisy; knight, rook, bishop if quiet), then single and double pushes
(quiet only).  `targets` is the bitboard of pushed pawns. -/
def Board.serialize_pawn_push_list (b : Board) (GQ GN : Bool) (targets : Nat) : List Nat :=
  let pushes := BitBoard.diff (targets &&& b.check_mask) b.occupied
  let promos := pushes &&& BitBoard.rank (Rank.relative 0 b.side_to_mv)
  let pushes := BitBoard.diff pushes promos
  (BitBoard.squares promos).flatMap
    (fun pawn =>
      (if GN then [Move.new_with_promotion (Square.down pawn b.side_to_mv) pawn 4] else []) ++
        (if GQ then
          [Move.new_with_promotion (Square.down pawn b.side_to_mv) pawn 1,
            Move.new_with_promotion (Square.down pawn b.side_to_mv) pawn 3,
            Move.new_with_promotion (Square.down pawn b.side_to_mv) pawn 2]
        else [])) ++
  (if GQ then
    (BitBoard.squares pushes).map
      (fun pawn => Move.new (Square.down pawn b.side_to_mv) pawn 0) ++
    (let double := targets &&& BitBoard.rank (Rank.relative 5 b.side_to_mv)
     let double := BitBoard.diff (BitBoard.up double b.side_to_mv &&& b.check_mask) b.occupied
     (BitBoard.squares double).map
       (fun pawn =>
         Move.new (Square.down (Square.down pawn b.side_to_mv) b.side_to_mv) pawn 0))
  else [])

/-- `Board::generate_pawn_moves` (`board.rs`): only pawn pushes are
generated (no capture or en-passant emission exists in the source). -/
def Board.pawn_move_list (b : Board) (GQ GN : Bool) : List Nat :=
  let pawns := BitBoard.diff (b.piece_color_bb 0 b.side_to_mv) b.pin_mask_d
  let pinned := pawns &&& b.pin_mask_l
  let unpinned := pawns ^^^ pinned
  let pinned_pushed := BitBoard.up pinned b.side_to_mv &&& b.pin_mask_l
  let unpinned_pushed := BitBoard.up unpinned b.side_to_mv
  b.serialize_pawn_push_list GQ GN (pinned_pushed ||| unpinned_pushed)

/-- `Board::generate_knight_moves` (`board.rs`). -/
def Board.knight_move_list (b : Board) : List Nat :=
  let knights :=
    BitBoard.diff (b.piece_color_bb 1 b.side_to_mv) (b.pin_mask_l ||| b.pin_mask_d)
  (BitBoard.squares knights).flatMap
    (fun knight => b.serialize_moves_list knight (knightAttacks knight))

/-- `Board::generate_bishop_moves` (`board.rs`): bishops and queens,
excluding line-pinned ones; diagonally-pinned ones keep only moves on
the diagonal pin mask. -/
def Board.bishop_move_list (b : Board) : List Nat :=
  let bishops :=
    BitBoard.diff (b.piece_color_bb 2 b.side_to_mv ||| b.piece_color_bb 4 b.side_to_mv)
      b.pin_mask_l
  let pinned := bishops &&& b.pin_mask_d
  let unpinned := bishops ^^^ pinned
  (BitBoard.squares pinned).flatMap
    (fun bishop =>
      b.serialize_moves_list bishop (bishopAttacks bishop b.occupied &&& b.pin_mask_d)) ++
  (BitBoard.squares unpinned).flatMap
    (fun bishop => b.serialize_moves_list bishop (bishopAttacks bishop b.occupied))

/-- `Board::generate_rook_moves` (`board.rs`). -/
def Board.rook_move_list (b : Board) : List Nat :=
  let rooks :=
    BitBoard.diff (b.piece_color_bb 3 b.side_to_mv ||| b.piece_color_bb 4 b.side_to_mv)
      b.pin_mask_d
  let pinned := rooks &&& b.pin_mask_l
  let unpinned := rooks ^^^ pinned
  (BitBoard.squares pinned).flatMap
    (fun rook =>
      b.serialize_moves_list rook (rookAttacks rook b.occupied &&& b.pin_mask_l)) ++
  (BitBoard.squares unpinned).flatMap
    (fun rook => b.serialize_moves_list rook (rookAttacks rook b.occupied))

/-- `Board::generate_castling_moves` (`board.rs`): for each held right,
the castling is emitted when the path is disjoint from
`occupied + threats`; there is no test that the king is out of check. -/
def Board.castle_move_list (b : Board) : List Nat :=
  let castling_blockers := b.occupied ||| b.threats
  let king := BitBoard.lsb (b.piece_color_bb 5 b.side_to_mv)
  (if castling.Rights.has b.castling_rights (castling.rightsBit b.side_to_mv 0) ∧
      BitBoard.is_disjoint (castling.path b.side_to_mv 0) castling_blockers then
    [Move.new king (castling.rookSq b.side_to_mv 0) 1]
  else []) ++
  (if castling.Rights.has b.castling_rights (castling.rightsBit b.side_to_mv 1) ∧
      BitBoard.is_disjoint (castling.path b.side_to_mv 1) castling_blockers then
    [Move.new king (castling.rookSq b.side_to_mv 1) 1]
  else [])

/-- The target filter of `Board::generate_moves` (`board.rs`): empty
squares when quiets are generated, plus enemy squares when noisies
are. -/
def Board.gen_targets (b : Board) (GQ GN : Bool) : Nat :=
  (if GQ then compl64 b.occupied else BitBoard.EMPTY) |||
    (if GN then b.enemies else BitBoard.EMPTY)

/-- The shared prefix of `Board::generate_moves` (`board.rs`): recompute
the threat and pin masks (these do not depend on the generation flags). -/
def Board.gen_setup (b : Board) : Board :=
  (b.generate_threats).generate_pin_masks

/-- `Board::generate_moves::<GEN_QUIET, GEN_NOISY>` (`board.rs`): clear
the move list, recompute threats and pin masks, set the target filter,
then emit king moves always and all other moves only when not in double
check. -/
def Board.generate_moves (b : Board) (GQ GN : Bool) : Board :=
  let c := b.gen_setup
  let c := { c with targets := c.gen_targets GQ GN }
  { c with
    move_list :=
      c.king_move_list ++
        (if c.check_nm < 2 then
          c.pawn_move_list GQ GN ++ c.knight_move_list ++ c.bishop_move_list ++
            c.rook_move_list ++ (if GQ then c.castle_move_list else [])
        else []) }

/-- `Board::generate_legal_moves` (`board.rs`). -/
def Board.generate_legal_moves (b : Board) : List Nat :=
  (b.generate_moves true true).move_list

/-- `Board::generate_quiet_moves` (`board.rs`). -/
def Board.generate_quiet_moves (b : Board) : List Nat :=
  (b.generate_moves true false).move_list

/-- `Board::generate_noisy_moves` (`board.rs`). -/
def Board.generate_noisy_moves (b : Board) : List Nat :=
  (b.generate_moves false true).move_list

/-- `Board::is_mated` (`board.rs`). -/
def Board.is_mated (b : Board) : Bool :=
  b.is_check && b.generate_legal_moves.isEmpty

/-- `Board::is_50_move_draw` (`board.rs`). -/
def Board.is_50_move_draw (b : Board) : Bool :=
  decide (100 ≤ b.draw_clock) &&
    (b.checkers == 0 || !b.generate_legal_moves.isEmpty)

/-! ## FEN text parsing and emission (`fen.rs`, `mailbox.rs`, `square.rs`) -/

/-- `MailboxParseErr` (`mailbox.rs`). -/
inductive MailboxParseErr where
  | JumpTooLong
  | InvalidPieceIdent
  | FileDataIncomplete
  | TooManyFields
deriving DecidableEq, Repr

/-- `FENParseError` (`fen.rs`).  The payload types of the source variants
are collapsed to the variant tag. -/
inductive FENParseError where
  | WrongFieldNumber
  | MailboxParseError (e : MailboxParseErr)
  | SideToMoveParseError
  | CastlingParseError
  | EnPassantSqParseError
  | HalfMoveClockParseError
  | FullMoveClockParseError
deriving DecidableEq, Repr

/-- `str::split_whitespace` on a character list. -/
def splitWsAux : List Char → List Char → List (List Char)
  | [], acc => if acc = [] then [] else [acc.reverse]
  | c :: cs, acc =>
    if c.isWhitespace then
      if acc = [] then splitWsAux cs [] else acc.reverse :: splitWsAux cs []
    else splitWsAux cs (c :: acc)

/-- Split a character list into whitespace-separated fields. -/
def splitWs (s : List Char) : List (List Char) := splitWsAux s []

/-- `str::split('/')` on a character list (keeps empty segments, as the
Rust `split` does). -/
def splitSlashAux : List Char → List Char → List (List Char)
  | [], acc => [acc.reverse]
  | c :: cs, acc =>
    if c = '/' then acc.reverse :: splitSlashAux cs [] else splitSlashAux cs (c :: acc)

/-- Split a character list on `/`. -/
def splitSlash (s : List Char) : List (List Char) := splitSlashAux s []

/-- The `ColoredPiece` denoted by a FEN piece character, or 12 when the
character is not a piece letter. -/
def pieceOfChar (c : Char) : Nat :=
  if c = 'P' then 0 else if c = 'N' then 1 else if c = 'B' then 2
  else if c = 'R' then 3 else if c = 'Q' then 4 else if c = 'K' then 5
  else if c = 'p' then 6 else if c = 'n' then 7 else if c = 'b' then 8
  else if c = 'r' then 9 else if c = 'q' then 10 else if c = 'k' then 11
  else 12

/-- The inner character loop of `Mailbox::from_str` (`mailbox.rs`):
thread the mailbox and the file pointer (8 encodes `File::None`). -/
def mailboxRankChars :
    List Char → Nat → Nat → List Nat → Except MailboxParseErr (List Nat × Nat)
  | [], _, file, mb => .ok (mb, file)
  | c :: cs, rank, file, mb =>
    if pieceOfChar c ≠ 12 then
      mailboxRankChars cs rank (file + 1) (mb.set (rank * 8 + file) (pieceOfChar c))
    else if '1' ≤ c ∧ c ≤ '8' then
      let file := file + (c.toNat - '1'.toNat)
      if file = 8 then .error .JumpTooLong
      else mailboxRankChars cs rank (file + 1) mb
    else .error .InvalidPieceIdent

/-- `Mailbox::from_str` (`mailbox.rs`): parse the piece-placement field
rank by rank. -/
def Mailbox.from_chars (s : List Char) : Except MailboxParseErr (List Nat) :=
  let step : Except MailboxParseErr (List Nat × Nat) → List Char →
      Except MailboxParseErr (List Nat × Nat) :=
    fun acc rank_data =>
      match acc with
      | .error e => .error e
      | .ok (mb, rank) =>
        if rank = 8 then .error .TooManyFields
        else
          match mailboxRankChars rank_data rank 0 mb with
          | .error e => .error e
          | .ok (mb, file) =>
            if file ≠ 8 then .error .FileDataIncomplete else .ok (mb, rank + 1)
  match (splitSlash s).foldl step (.ok (List.replicate 64 12, 0)) with
  | .error e => .error e
  | .ok (mb, _) => .ok mb

/-- Modelled from the spec: `Color::from_str` (`color.rs`): the
side-to-move field is `w` or `b`. -/
def Color.from_chars (s : List Char) : Except Unit Nat :=
  if s = ['w'] then .ok 0 else if s = ['b'] then .ok 1 else .error ()

/-- `Square::from_str` (`square.rs`): `-` is `Square::None`; otherwise a
file letter `a`–`h` followed by a rank digit `1`–`8`. -/
def Square.from_chars (s : List Char) : Except Unit Nat :=
  if s = ['-'] then .ok 64
  else
    match s with
    | [f, r] =>
      if 'a' ≤ f ∧ f ≤ 'h' then
        if '1' ≤ r ∧ r ≤ '8' then
          .ok ((7 - (r.toNat - '1'.toNat)) * 8 + (f.toNat - 'a'.toNat))
        else .error ()
      else .error ()
    | _ => .error ()

/-- Decimal digit-string parsing shared by the clock fields
(`str::parse` on the digit strings the FEN fields contain). -/
def parseDigits : List Char → Option Nat
  | [] => none
  | s =>
    s.foldl
      (fun acc c =>
        match acc with
        | none => none
        | some n => if c.isDigit then some (n * 10 + (c.toNat - '0'.toNat)) else none)
      (some 0)

/-- `str::parse::<u8>`: digits with the `u8` range check. -/
def parseU8 (s : List Char) : Except Unit Nat :=
  match parseDigits s with
  | some n => if n ≤ 255 then .ok n else .error ()
  | none => .error ()

/-- `str::parse::<u16>`: digits with the `u16` range check. -/
def parseU16 (s : List Char) : Except Unit Nat :=
  match parseDigits s with
  | some n => if n ≤ 65535 then .ok n else .error ()
  | none => .error ()

/-- `FEN::from_str` (`fen.rs`): split into whitespace fields, require
exactly six, and parse the position, side to move, en-passant square and
the two clocks.  As in the source, the castling field (`fields[2]`) is
never examined and the castling rights are always the full set
`WH + WA + BH + BA`. -/
def FEN.from_chars (s : List Char) : Except FENParseError FEN :=
  let fields := splitWs s
  if fields.length = 6 then
    match Mailbox.from_chars (fields.getD 0 []) with
    | .error e => .error (.MailboxParseError e)
    | .ok position =>
      match Color.from_chars (fields.getD 1 []) with
      | .error _ => .error .SideToMoveParseError
      | .ok side_to_move =>
        match Square.from_chars (fields.getD 3 []) with
        | .error _ => .error .EnPassantSqParseError
        | .ok en_pass_square =>
          match parseU8 (fields.getD 4 []) with
          | .error _ => .error .HalfMoveClockParseError
          | .ok half_move_clock =>
            match parseU16 (fields.getD 5 []) with
            | .error _ => .error .FullMoveClockParseError
            | .ok full_move_count =>
              .ok
                { position := position
                  side_to_move := side_to_move
                  castling_rights :=
                    castling.Rights.plus
                      (castling.Rights.plus
                        (castling.Rights.plus castling.Rights.WH castling.Rights.WA)
                        castling.Rights.BH)
                      castling.Rights.BA
                  en_pass_square := en_pass_square
                  half_move_clock := half_move_clock
                  full_move_count := full_move_count }
  else .error .WrongFieldNumber

/-- `impl From<&Board> for FEN` (`fen.rs`): note that the emitted
castling rights are the constant `castling::Rights::BA`. -/
def FEN.from_board (b : Board) : FEN :=
  { position := b.mailbox
    side_to_move := b.side_to_mv
    castling_rights := castling.Rights.BA
    en_pass_square := b.enp_target
    half_move_clock := b.draw_clock
    full_move_count := b.plys_count / 2 + 1 }

/-- The FEN piece character of a `ColoredPiece` code. -/
def charOfPiece (cp : Nat) : Char :=
  if cp = 0 then 'P' else if cp = 1 then 'N' else if cp = 2 then 'B'
  else if cp = 3 then 'R' else if cp = 4 then 'Q' else if cp = 5 then 'K'
  else if cp = 6 then 'p' else if cp = 7 then 'n' else if cp = 8 then 'b'
  else if cp = 9 then 'r' else if cp = 10 then 'q' else if cp = 11 then 'k'
  else ' '

/-- Decimal digits of a `Nat` (`to_string` of the counters). -/
def natChars (n : Nat) : List Char :=
  (Nat.toDigits 10 n)

/-- `impl Display for Mailbox` (`mailbox.rs`): run-length compressed
piece placement, `/`-separated from rank 8 to rank 1. -/
def Mailbox.displayChars (mb : List Nat) : List Char :=
  let step : List Char × Nat → Nat → List Char × Nat :=
    fun acc square =>
      let piece := mb.getD square 12
      let crossed_edge := fileOf square = 0
      let acc :=
        if 0 < acc.2 ∧ (piece ≠ 12 ∨ crossed_edge) then
          (acc.1 ++ natChars acc.2, 0)
        else acc
      let acc := if crossed_edge ∧ square ≠ 0 then (acc.1 ++ ['/'], acc.2) else acc
      if piece = 12 then (acc.1, acc.2 + 1) else (acc.1 ++ [charOfPiece piece], acc.2)
  let r := (List.range 64).foldl step ([], 0)
  if 0 < r.2 then r.1 ++ natChars r.2 else r.1

/-- `impl Display for Square` (`square.rs`): `-` for `Square::None`, else
file letter and rank digit. -/
def Square.displayChars (sq : Nat) : List Char :=
  if sq = 64 then ['-']
  else [Char.ofNat ('a'.toNat + fileOf sq), Char.ofNat ('1'.toNat + (7 - rankOf sq))]

/-- Modelled from the spec: `impl Display for Color` (`color.rs`): `w`
for White, `b` for Black. -/
def Color.displayChars (c : Nat) : List Char := if c = 0 then ['w'] else ['b']

/-- `impl Display for FEN` (`fen.rs`): the format string is
`"{} {} cas {} {} {}"` — the third field is the literal `cas` and the
en-passant square, halfmove clock and fullmove number follow it. -/
def FEN.displayChars (fen : FEN) : List Char :=
  Mailbox.displayChars fen.position ++ [' '] ++ Color.displayChars fen.side_to_move ++
    [' ', 'c', 'a', 's', ' '] ++ Square.displayChars fen.en_pass_square ++ [' '] ++
    natChars fen.half_move_clock ++ [' '] ++ natChars fen.full_move_count

/-! ## Field extraction facts for the move encoding -/

theorem testBit63 (i : Nat) : (63 : Nat).testBit i = decide (i < 6) := by
  rw [show (63 : Nat) = 2 ^ 6 - 1 from rfl, Nat.testBit_two_pow_sub_one]

theorem testBit3 (i : Nat) : (3 : Nat).testBit i = decide (i < 2) := by
  rw [show (3 : Nat) = 2 ^ 2 - 1 from rfl, Nat.testBit_two_pow_sub_one]

theorem testBit_small {a : Nat} (ha : a < 64) {i : Nat} (hi : 6 ≤ i) :
    a.testBit i = false := by
  apply Nat.testBit_eq_false_of_lt
  calc a < 64 := ha
    _ = 2 ^ 6 := by norm_num
    _ ≤ 2 ^ i := Nat.pow_le_pow_right (by norm_num) hi

theorem Move.source_new {s t f : Nat} (hs : s < 64) :
    Move.source (Move.new s t f) = s := by
  unfold Move.source Move.new
  apply Nat.eq_of_testBit_eq
  intro i
  simp only [Nat.testBit_and, Nat.testBit_or, Nat.testBit_shiftLeft, testBit63]
  by_cases h6 : i < 6
  · have h14 : ¬ (i ≥ 14) := by omega
    have hh6 : ¬ (i ≥ 6) := by omega
    simp [h6, h14, hh6]
  · have h6' : 6 ≤ i := by omega
    simp [h6, testBit_small hs h6']

theorem Move.target_new {s t f : Nat} (hs : s < 64) (ht : t < 64) :
    Move.target (Move.new s t f) = t := by
  unfold Move.target Move.new
  apply Nat.eq_of_testBit_eq
  intro i
  simp only [Nat.testBit_and, Nat.testBit_or, Nat.testBit_shiftLeft,
    Nat.testBit_shiftRight, testBit63]
  by_cases h6 : i < 6
  · have h14 : ¬ (6 + i ≥ 14) := by omega
    have hh6 : 6 + i ≥ 6 := by omega
    simp [h6, h14, hh6, testBit_small hs (show 6 ≤ 6 + i by omega)]
  · have h6' : 6 ≤ i := by omega
    simp [h6, testBit_small ht h6']

theorem Move.flags_new {s t f : Nat} (hs : s < 64) (ht : t < 64) (hf : f < 4) :
    Move.flags (Move.new s t f) = f := by
  unfold Move.flags Move.new
  apply Nat.eq_of_testBit_eq
  intro i
  simp only [Nat.testBit_and, Nat.testBit_or, Nat.testBit_shiftLeft,
    Nat.testBit_shiftRight, testBit3]
  by_cases h2 : i < 2
  · have h14 : 14 + i ≥ 14 := by omega
    have hsub : 14 + i - 14 = i := by omega
    have hh6 : 14 + i ≥ 6 := by omega
    have hsub6 : 14 + i - 6 = 8 + i := by omega
    simp [h2, h14, hsub, hh6, hsub6, testBit_small hs (show 6 ≤ 14 + i by omega),
      testBit_small ht (show 6 ≤ 8 + i by omega)]
  · have h2i : 2 ≤ i := by omega
    have hfi : f < 2 ^ i := by
      calc f < 4 := hf
        _ = 2 ^ 2 := by norm_num
        _ ≤ 2 ^ i := Nat.pow_le_pow_right (by norm_num) h2i
    simp [h2, Nat.testBit_eq_false_of_lt hfi]

theorem Move.source_promo {s t p : Nat} (hs : s < 64) :
    Move.source (Move.new_with_promotion s t p) = s := by
  unfold Move.source Move.new_with_promotion
  apply Nat.eq_of_testBit_eq
  intro i
  simp only [Nat.testBit_and, Nat.testBit_or, Nat.testBit_shiftLeft, testBit63]
  by_cases h6 : i < 6
  · have h12 : ¬ (i ≥ 12) := by omega
    have h14 : ¬ (i ≥ 14) := by omega
    have hh6 : ¬ (i ≥ 6) := by omega
    simp [h6, h12, h14, hh6]
  · have h6' : 6 ≤ i := by omega
    simp [h6, testBit_small hs h6']

theorem Move.target_promo {s t p : Nat} (hs : s < 64) (ht : t < 64) :
    Move.target (Move.new_with_promotion s t p) = t := by
  unfold Move.target Move.new_with_promotion
  apply Nat.eq_of_testBit_eq
  intro i
  simp only [Nat.testBit_and, Nat.testBit_or, Nat.testBit_shiftLeft,
    Nat.testBit_shiftRight, testBit63]
  by_cases h6 : i < 6
  · have h12 : ¬ (6 + i ≥ 12) := by omega
    have h14 : ¬ (6 + i ≥ 14) := by omega
    have hh6 : 6 + i ≥ 6 := by omega
    simp [h6, h12, h14, hh6, testBit_small hs (show 6 ≤ 6 + i by omega)]
  · have h6' : 6 ≤ i := by omega
    simp [h6, testBit_small ht h6']

theorem Move.flags_promo {s t p : Nat} (hs : s < 64) (ht : t < 64) (hp : p ≤ 4) :
    Move.flags (Move.new_with_promotion s t p) = 2 := by
  unfold Move.flags Move.new_with_promotion
  apply Nat.eq_of_testBit_eq
  intro i
  simp only [Nat.testBit_and, Nat.testBit_or, Nat.testBit_shiftLeft,
    Nat.testBit_shiftRight, testBit3]
  by_cases h2 : i < 2
  · have h14 : 14 + i ≥ 14 := by omega
    have hsub : 14 + i - 14 = i := by omega
    have h12 : 14 + i ≥ 12 := by omega
    have hsub12 : 14 + i - 12 = 2 + i := by omega
    have hh6 : 14 + i ≥ 6 := by omega
    have hsub6 : 14 + i - 6 = 8 + i := by omega
    have hp1 : p - 1 < 2 ^ (2 + i) := by
      calc p - 1 < 4 := by omega
        _ = 2 ^ 2 := by norm_num
        _ ≤ 2 ^ (2 + i) := Nat.pow_le_pow_right (by norm_num) (by omega)
    simp [h2, h14, hsub, h12, hsub12, hh6, hsub6,
      testBit_small hs (show 6 ≤ 14 + i by omega),
      testBit_small ht (show 6 ≤ 8 + i by omega),
      Nat.testBit_eq_false_of_lt hp1]
  · have h2' : (2 : Nat) < 2 ^ i := by
      have : 2 ≤ i := by omega
      calc (2 : Nat) < 4 := by norm_num
        _ ≤ 2 ^ i := by
          calc (4 : Nat) = 2 ^ 2 := by norm_num
            _ ≤ 2 ^ i := Nat.pow_le_pow_right (by norm_num) this
    simp [h2, Nat.testBit_eq_false_of_lt h2']

theorem Move.promot_promo {s t p : Nat} (hs : s < 64) (ht : t < 64) (hp1 : 1 ≤ p)
    (hp : p ≤ 4) : Move.promot (Move.new_with_promotion s t p) = p := by
  unfold Move.promot Move.new_with_promotion
  have key : ((((p - 1) <<< 12 ||| 2 <<< 14 ||| s ||| t <<< 6) >>> 12) &&& 3) = p - 1 := by
    apply Nat.eq_of_testBit_eq
    intro i
    simp only [Nat.testBit_and, Nat.testBit_or, Nat.testBit_shiftLeft,
      Nat.testBit_shiftRight, testBit3]
    by_cases h2 : i < 2
    · have h12 : 12 + i ≥ 12 := by omega
      have hsub : 12 + i - 12 = i := by omega
      have h14 : ¬ (12 + i ≥ 14) := by omega
      have hh6 : 12 + i ≥ 6 := by omega
      have hsub6 : 12 + i - 6 = 6 + i := by omega
      simp [h2, h12, hsub, h14, hh6, hsub6,
        testBit_small hs (show 6 ≤ 12 + i by omega),
        testBit_small ht (show 6 ≤ 6 + i by omega)]
    · have h2i : 2 ≤ i := by omega
      have hpi : p - 1 < 2 ^ i := by
        calc p - 1 < 4 := by omega
          _ = 2 ^ 2 := by norm_num
          _ ≤ 2 ^ i := Nat.pow_le_pow_right (by norm_num) h2i
      simp [h2, Nat.testBit_eq_false_of_lt hpi]
  rw [key]
  omega

/-! ## Membership infrastructure for the generated move lists -/

theorem mem_squares {t X : Nat} :
    t ∈ BitBoard.squares X ↔ t < 64 ∧ X.testBit t = true := by
  simp [BitBoard.squares, List.mem_filter, List.mem_range]

theorem targets_upd (s : Board) (X : Nat) : ({ s with targets := X } : Board).targets = X :=
  rfl

theorem serialize_mem {s : Board} {X src A m : Nat} :
    m ∈ Board.serialize_moves_list { s with targets := X } src A ↔
      ∃ t, t < 64 ∧ (A &&& X &&& s.check_mask).testBit t = true ∧ m = Move.new src t 0 := by
  simp only [Board.serialize_moves_list, List.mem_map, mem_squares, targets_upd]
  constructor
  · rintro ⟨t, ⟨ht, hbit⟩, rfl⟩
    exact ⟨t, ht, hbit, rfl⟩
  · rintro ⟨t, ht, hbit, rfl⟩
    exact ⟨t, ⟨ht, hbit⟩, rfl⟩

theorem serialize_mem_union {s : Board} {X Y src A m : Nat} :
    m ∈ Board.serialize_moves_list { s with targets := X ||| Y } src A ↔
      m ∈ Board.serialize_moves_list { s with targets := X } src A ∨
        m ∈ Board.serialize_moves_list { s with targets := Y } src A := by
  simp only [serialize_mem]
  constructor
  · rintro ⟨t, ht, hbit, rfl⟩
    rw [Nat.testBit_and, Nat.testBit_and, Nat.testBit_or] at hbit
    rcases Bool.and_eq_true_iff.mp hbit with ⟨hl, hc⟩
    rcases Bool.and_eq_true_iff.mp hl with ⟨ha, hxy⟩
    rcases Bool.or_eq_true_iff.mp hxy with hx | hy
    · exact Or.inl ⟨t, ht, by simp [Nat.testBit_and, ha, hx, hc], rfl⟩
    · exact Or.inr ⟨t, ht, by simp [Nat.testBit_and, ha, hy, hc], rfl⟩
  · rintro (⟨t, ht, hbit, rfl⟩ | ⟨t, ht, hbit, rfl⟩) <;>
      [skip; skip] <;>
      · refine ⟨t, ht, ?_, rfl⟩
        simp only [Nat.testBit_and, Nat.testBit_or] at hbit ⊢
        rcases Bool.and_eq_true_iff.mp hbit with ⟨hl, hc⟩
        rcases Bool.and_eq_true_iff.mp hl with ⟨ha, hx⟩
        simp [ha, hx, hc]

theorem serialize_king_mem {s : Board} {X src A m : Nat} :
    m ∈ Board.serialize_king_moves_list { s with targets := X } src A ↔
      ∃ t, t < 64 ∧ (BitBoard.diff (A &&& X) s.threats).testBit t = true ∧
        m = Move.new src t 0 := by
  simp only [Board.serialize_king_moves_list, List.mem_map, mem_squares, targets_upd]
  constructor
  · rintro ⟨t, ⟨ht, hbit⟩, rfl⟩
    exact ⟨t, ht, hbit, rfl⟩
  · rintro ⟨t, ht, hbit, rfl⟩
    exact ⟨t, ⟨ht, hbit⟩, rfl⟩

theorem serialize_king_mem_union {s : Board} {X Y src A m : Nat} :
    m ∈ Board.serialize_king_moves_list { s with targets := X ||| Y } src A ↔
      m ∈ Board.serialize_king_moves_list { s with targets := X } src A ∨
        m ∈ Board.serialize_king_moves_list { s with targets := Y } src A := by
  simp only [serialize_king_mem]
  constructor
  · rintro ⟨t, ht, hbit, rfl⟩
    rw [BitBoard.diff, Nat.testBit_and, Nat.testBit_and, Nat.testBit_or] at hbit
    rcases Bool.and_eq_true_iff.mp hbit with ⟨hl, hc⟩
    rcases Bool.and_eq_true_iff.mp hl with ⟨ha, hxy⟩
    rcases Bool.or_eq_true_iff.mp hxy with hx | hy
    · exact Or.inl ⟨t, ht, by simp [BitBoard.diff, Nat.testBit_and, ha, hx, hc], rfl⟩
    · exact Or.inr ⟨t, ht, by simp [BitBoard.diff, Nat.testBit_and, ha, hy, hc], rfl⟩
  · rintro (⟨t, ht, hbit, rfl⟩ | ⟨t, ht, hbit, rfl⟩) <;>
      · refine ⟨t, ht, ?_, rfl⟩
        simp only [BitBoard.diff, Nat.testBit_and, Nat.testBit_or] at hbit ⊢
        rcases Bool.and_eq_true_iff.mp hbit with ⟨hl, hc⟩
        rcases Bool.and_eq_true_iff.mp hl with ⟨ha, hx⟩
        simp [ha, hx, hc]

theorem pcb_upd (s : Board) (X p c : Nat) :
    ({ s with targets := X } : Board).piece_color_bb p c = s.piece_color_bb p c := rfl

theorem stm_upd (s : Board) (X : Nat) :
    ({ s with targets := X } : Board).side_to_mv = s.side_to_mv := rfl

theorem pml_upd (s : Board) (X : Nat) :
    ({ s with targets := X } : Board).pin_mask_l = s.pin_mask_l := rfl

theorem pmd_upd (s : Board) (X : Nat) :
    ({ s with targets := X } : Board).pin_mask_d = s.pin_mask_d := rfl

theorem occ_upd (s : Board) (X : Nat) :
    ({ s with targets := X } : Board).occupied = s.occupied := rfl

theorem cn_upd (s : Board) (X : Nat) :
    ({ s with targets := X } : Board).check_nm = s.check_nm := rfl

theorem knight_mem_union {s : Board} {X Y : Nat} {m : Nat} :
    m ∈ Board.knight_move_list { s with targets := X ||| Y } ↔
      m ∈ Board.knight_move_list { s with targets := X } ∨
        m ∈ Board.knight_move_list { s with targets := Y } := by
  simp only [Board.knight_move_list, List.mem_flatMap, pcb_upd, stm_upd, pml_upd, pmd_upd,
    serialize_mem_union]
  constructor
  · rintro ⟨k, hk, h | h⟩
    exacts [Or.inl ⟨k, hk, h⟩, Or.inr ⟨k, hk, h⟩]
  · rintro (⟨k, hk, h⟩ | ⟨k, hk, h⟩)
    exacts [⟨k, hk, Or.inl h⟩, ⟨k, hk, Or.inr h⟩]

theorem bishop_mem_union {s : Board} {X Y : Nat} {m : Nat} :
    m ∈ Board.bishop_move_list { s with targets := X ||| Y } ↔
      m ∈ Board.bishop_move_list { s with targets := X } ∨
        m ∈ Board.bishop_move_list { s with targets := Y } := by
  simp only [Board.bishop_move_list, List.mem_append, List.mem_flatMap, pcb_upd, stm_upd,
    pml_upd, pmd_upd, occ_upd, serialize_mem_union]
  constructor
  · rintro (⟨k, hk, h | h⟩ | ⟨k, hk, h | h⟩)
    exacts [Or.inl (Or.inl ⟨k, hk, h⟩), Or.inr (Or.inl ⟨k, hk, h⟩),
      Or.inl (Or.inr ⟨k, hk, h⟩), Or.inr (Or.inr ⟨k, hk, h⟩)]
  · rintro ((⟨k, hk, h⟩ | ⟨k, hk, h⟩) | (⟨k, hk, h⟩ | ⟨k, hk, h⟩))
    exacts [Or.inl ⟨k, hk, Or.inl h⟩, Or.inr ⟨k, hk, Or.inl h⟩,
      Or.inl ⟨k, hk, Or.inr h⟩, Or.inr ⟨k, hk, Or.inr h⟩]

theorem rook_mem_union {s : Board} {X Y : Nat} {m : Nat} :
    m ∈ Board.rook_move_list { s with targets := X ||| Y } ↔
      m ∈ Board.rook_move_list { s with targets := X } ∨
        m ∈ Board.rook_move_list { s with targets := Y } := by
  simp only [Board.rook_move_list, List.mem_append, List.mem_flatMap, pcb_upd, stm_upd,
    pml_upd, pmd_upd, occ_upd, serialize_mem_union]
  constructor
  · rintro (⟨k, hk, h | h⟩ | ⟨k, hk, h | h⟩)
    exacts [Or.inl (Or.inl ⟨k, hk, h⟩), Or.inr (Or.inl ⟨k, hk, h⟩),
      Or.inl (Or.inr ⟨k, hk, h⟩), Or.inr (Or.inr ⟨k, hk, h⟩)]
  · rintro ((⟨k, hk, h⟩ | ⟨k, hk, h⟩) | (⟨k, hk, h⟩ | ⟨k, hk, h⟩))
    exacts [Or.inl ⟨k, hk, Or.inl h⟩, Or.inr ⟨k, hk, Or.inl h⟩,
      Or.inl ⟨k, hk, Or.inr h⟩, Or.inr ⟨k, hk, Or.inr h⟩]

theorem king_mem_union {s : Board} {X Y : Nat} {m : Nat} :
    m ∈ Board.king_move_list { s with targets := X ||| Y } ↔
      m ∈ Board.king_move_list { s with targets := X } ∨
        m ∈ Board.king_move_list { s with targets := Y } := by
  simp only [Board.king_move_list, pcb_upd, stm_upd]
  exact serialize_king_mem_union

theorem pawn_targets_irrel (s : Board) (X : Nat) (GQ GN : Bool) :
    Board.pawn_move_list { s with targets := X } GQ GN = Board.pawn_move_list s GQ GN := rfl

theorem castle_targets_irrel (s : Board) (X : Nat) :
    Board.castle_move_list { s with targets := X } = Board.castle_move_list s := rfl


theorem pawn_push_mem {b : Board} {GQ GN : Bool} {T m : Nat} :
    m ∈ b.serialize_pawn_push_list GQ GN T ↔
      (∃ p ∈ BitBoard.squares
          (BitBoard.diff (T &&& b.check_mask) b.occupied &&&
            BitBoard.rank (Rank.relative 0 b.side_to_mv)),
        (GN = true ∧ m = Move.new_with_promotion (Square.down p b.side_to_mv) p 4) ∨
          (GQ = true ∧
            (m = Move.new_with_promotion (Square.down p b.side_to_mv) p 1 ∨
              m = Move.new_with_promotion (Square.down p b.side_to_mv) p 3 ∨
              m = Move.new_with_promotion (Square.down p b.side_to_mv) p 2))) ∨
      (GQ = true ∧
        ((∃ p ∈ BitBoard.squares
            (BitBoard.diff (BitBoard.diff (T &&& b.check_mask) b.occupied)
              (BitBoard.diff (T &&& b.check_mask) b.occupied &&&
                BitBoard.rank (Rank.relative 0 b.side_to_mv))),
          Move.new (Square.down p b.side_to_mv) p 0 = m) ∨
          (∃ p ∈ BitBoard.squares
            (BitBoard.diff
              (BitBoard.up (T &&& BitBoard.rank (Rank.relative 5 b.side_to_mv)) b.side_to_mv &&&
                b.check_mask) b.occupied),
            Move.new (Square.down (Square.down p b.side_to_mv) b.side_to_mv) p 0 = m))) := by
  simp only [Board.serialize_pawn_push_list, List.mem_append, List.mem_flatMap,
    List.mem_ite_nil_right, List.mem_cons, List.not_mem_nil, or_false, List.mem_map]

theorem pawn_mem_split {s : Board} {m : Nat} :
    m ∈ Board.pawn_move_list s true true ↔
      m ∈ Board.pawn_move_list s true false ∨ m ∈ Board.pawn_move_list s false true := by
  simp only [Board.pawn_move_list, pawn_push_mem]
  constructor
  · rintro (⟨p, hp, ⟨-, h⟩ | ⟨-, h⟩⟩ | ⟨-, h⟩)
    · exact Or.inr (Or.inl ⟨p, hp, Or.inl ⟨trivial, h⟩⟩)
    · exact Or.inl (Or.inl ⟨p, hp, Or.inr ⟨trivial, h⟩⟩)
    · exact Or.inl (Or.inr ⟨trivial, h⟩)
  · rintro ((⟨p, hp, ⟨h0, -⟩ | ⟨-, h⟩⟩ | ⟨-, h⟩) | (⟨p, hp, ⟨-, h⟩ | ⟨h0, -⟩⟩ | ⟨h0, -⟩))
    · simp at h0
    · exact Or.inl ⟨p, hp, Or.inr ⟨trivial, h⟩⟩
    · exact Or.inr ⟨trivial, h⟩
    · exact Or.inl ⟨p, hp, Or.inl ⟨trivial, h⟩⟩
    · simp at h0
    · simp at h0

theorem gen_targets_tt (s : Board) :
    s.gen_targets true true = compl64 s.occupied ||| s.enemies := by
  simp [Board.gen_targets]

theorem gen_targets_tf (s : Board) : s.gen_targets true false = compl64 s.occupied := by
  simp [Board.gen_targets, BitBoard.EMPTY]

theorem gen_targets_ft (s : Board) : s.gen_targets false true = s.enemies := by
  simp [Board.gen_targets, BitBoard.EMPTY]

theorem mem_generate_moves {b : Board} {GQ GN : Bool} {m : Nat} :
    m ∈ (b.generate_moves GQ GN).move_list ↔
      m ∈ Board.king_move_list { b.gen_setup with targets := b.gen_setup.gen_targets GQ GN } ∨
        (b.gen_setup.check_nm < 2 ∧
          (m ∈ Board.pawn_move_list b.gen_setup GQ GN ∨
            m ∈ Board.knight_move_list
              { b.gen_setup with targets := b.gen_setup.gen_targets GQ GN } ∨
            m ∈ Board.bishop_move_list
              { b.gen_setup with targets := b.gen_setup.gen_targets GQ GN } ∨
            m ∈ Board.rook_move_list
              { b.gen_setup with targets := b.gen_setup.gen_targets GQ GN } ∨
            (GQ = true ∧ m ∈ Board.castle_move_list b.gen_setup))) := by
  simp only [Board.generate_moves, List.mem_append, List.mem_ite_nil_right, cn_upd,
    pawn_targets_irrel, castle_targets_irrel]
  tauto

theorem C4equal {b : Board} (m : Nat) :
    m ∈ b.generate_legal_moves ↔ m ∈ b.generate_quiet_moves ∨ m ∈ b.generate_noisy_moves := by
  simp only [Board.generate_legal_moves, Board.generate_quiet_moves, Board.generate_noisy_moves,
    mem_generate_moves, gen_targets_tt, gen_targets_tf, gen_targets_ft,
    king_mem_union, knight_mem_union, bishop_mem_union, rook_mem_union, pawn_mem_split]
  tauto

theorem serialize_mem_any {c : Board} {src A m : Nat} :
    m ∈ c.serialize_moves_list src A ↔
      ∃ t, t < 64 ∧ (A &&& c.targets &&& c.check_mask).testBit t = true ∧
        m = Move.new src t 0 := by
  simp only [Board.serialize_moves_list, List.mem_map, mem_squares]
  constructor
  · rintro ⟨t, ⟨ht, hbit⟩, rfl⟩
    exact ⟨t, ht, hbit, rfl⟩
  · rintro ⟨t, ht, hbit, rfl⟩
    exact ⟨t, ⟨ht, hbit⟩, rfl⟩

theorem serialize_king_mem_any {c : Board} {src A m : Nat} :
    m ∈ c.serialize_king_moves_list src A ↔
      ∃ t, t < 64 ∧ (BitBoard.diff (A &&& c.targets) c.threats).testBit t = true ∧
        m = Move.new src t 0 := by
  simp only [Board.serialize_king_moves_list, List.mem_map, mem_squares]
  constructor
  · rintro ⟨t, ⟨ht, hbit⟩, rfl⟩
    exact ⟨t, ht, hbit, rfl⟩
  · rintro ⟨t, ht, hbit, rfl⟩
    exact ⟨t, ⟨ht, hbit⟩, rfl⟩

theorem testBit_compl64 {X t : Nat} (ht : t < 64) :
    (compl64 X).testBit t = !X.testBit t := by
  rw [compl64, Nat.testBit_xor,
    show BitBoard.UNIVERSE = 2 ^ 64 - 1 from rfl, Nat.testBit_two_pow_sub_one]
  simp [ht, Bool.xor_true]

theorem testBit_rank {r t : Nat} (h : (BitBoard.rank r).testBit t = true) :
    8 * r ≤ t ∧ t < 8 * r + 8 := by
  rw [BitBoard.rank, Nat.testBit_shiftLeft,
    show (255 : Nat) = 2 ^ 8 - 1 from rfl, Nat.testBit_two_pow_sub_one] at h
  rcases Bool.and_eq_true_iff.mp h with ⟨h1, h2⟩
  have h1' := of_decide_eq_true h1
  have h2' := of_decide_eq_true h2
  omega

theorem testBit_lt_of_lt {X t : Nat} (hX : X < U64) (h : X.testBit t = true) : t < 64 := by
  by_contra hc
  rw [Nat.testBit_eq_false_of_lt (lt_of_lt_of_le hX ?_)] at h
  · exact Bool.false_ne_true h
  · rw [show U64 = 2 ^ 64 from rfl]
    exact Nat.pow_le_pow_right (by norm_num) (by omega)

theorem up_bit_down_lt {X c t : Nat} (hX : X < U64) (ht : t < 64)
    (h : (BitBoard.up X c).testBit t = true) : Square.down t c < 64 := by
  rw [BitBoard.up] at h
  rw [Square.down]
  by_cases hc : c = 0
  · rw [if_pos hc] at h ⊢
    rw [Nat.testBit_shiftRight] at h
    have := testBit_lt_of_lt hX h
    omega
  · rw [if_neg hc]
    omega

theorem and_bit {A B t : Nat} (h : (A &&& B).testBit t = true) :
    A.testBit t = true ∧ B.testBit t = true := by
  rw [Nat.testBit_and] at h
  exact Bool.and_eq_true_iff.mp h

theorem diff_bit {A B t : Nat} (ht : t < 64) (h : (BitBoard.diff A B).testBit t = true) :
    A.testBit t = true ∧ B.testBit t = false := by
  rw [BitBoard.diff, Nat.testBit_and, testBit_compl64 ht] at h
  rcases Bool.and_eq_true_iff.mp h with ⟨h1, h2⟩
  exact ⟨h1, by simpa using h2⟩

theorem xor_lt_u64 {a b : Nat} (ha : a < U64) (hb : b < U64) : a ^^^ b < U64 := by
  rw [show U64 = 2 ^ 64 from rfl] at ha hb ⊢
  exact Nat.xor_lt_two_pow ha hb

/-- Source-square bound for the pushed-pawn bitboard of
`generate_pawn_moves`: a pushed square can be pushed back down onto the
board. -/
theorem pawn_push_src_lt {b : Board} (hpawn : b.piece_color_bb 0 b.side_to_mv < U64)
    {p : Nat} (hp64 : p < 64)
    (h : ((BitBoard.up
            (BitBoard.diff (b.piece_color_bb 0 b.side_to_mv) b.pin_mask_d &&& b.pin_mask_l)
            b.side_to_mv &&& b.pin_mask_l) |||
          BitBoard.up
            (BitBoard.diff (b.piece_color_bb 0 b.side_to_mv) b.pin_mask_d ^^^
              BitBoard.diff (b.piece_color_bb 0 b.side_to_mv) b.pin_mask_d &&& b.pin_mask_l)
            b.side_to_mv).testBit p = true) :
    Square.down p b.side_to_mv < 64 := by
  have hpawns : BitBoard.diff (b.piece_color_bb 0 b.side_to_mv) b.pin_mask_d < U64 :=
    lt_of_le_of_lt Nat.and_le_left hpawn
  rw [Nat.testBit_or] at h
  rcases Bool.or_eq_true_iff.mp h with h | h
  · have h1 := (and_bit h).1
    exact up_bit_down_lt (lt_of_le_of_lt Nat.and_le_left hpawns) hp64 h1
  · exact up_bit_down_lt (xor_lt_u64 hpawns (lt_of_le_of_lt Nat.and_le_left hpawns)) hp64 h

/-- Source-square bound for promotion squares: they lie on the relative
eighth rank, so the pawn's source square is on the board. -/
theorem promo_src_lt {c p : Nat} (hp64 : p < 64)
    (h : (BitBoard.rank (Rank.relative 0 c)).testBit p = true) :
    Square.down p c < 64 := by
  rw [Rank.relative] at h
  rw [Square.down]
  by_cases hc : c = 0
  · rw [if_pos hc] at h ⊢
    have := testBit_rank h
    omega
  · rw [if_neg hc]
    omega

/-- Source-square bound for double pushes: the pushed-twice square comes
from the relative third rank. -/
theorem double_src_lt {Y c p : Nat} (hp64 : p < 64)
    (h : (BitBoard.up (Y &&& BitBoard.rank (Rank.relative 5 c)) c).testBit p = true) :
    Square.down (Square.down p c) c < 64 := by
  by_cases hc : c = 0
  · subst hc
    have h' : ((Y &&& BitBoard.rank (Rank.relative 5 0)) >>> 8).testBit p = true := by
      simpa [BitBoard.up] using h
    rw [Nat.testBit_shiftRight] at h'
    have h2 := (and_bit h').2
    have hr : (BitBoard.rank 5).testBit (8 + p) = true := by
      simpa [Rank.relative] using h2
    have := testBit_rank hr
    simp [Square.down]
    omega
  · simp only [BitBoard.up, if_neg hc] at h
    simp only [Square.down, if_neg hc]
    rw [show U64 = 2 ^ 64 from rfl, Nat.testBit_mod_two_pow] at h
    rcases Bool.and_eq_true_iff.mp h with ⟨-, h⟩
    rw [Nat.testBit_shiftLeft] at h
    rcases Bool.and_eq_true_iff.mp h with ⟨hge, h⟩
    have hge2 := of_decide_eq_true hge
    have h2 := (and_bit h).2
    rw [Rank.relative, if_neg hc] at h2
    have := testBit_rank h2
    omega

theorem rookSq_lt (c s : Nat) : castling.rookSq c s < 64 := by
  rw [castling.rookSq]
  split <;> split <;> norm_num

theorem normal_serialize_fact {c : Board} {src A m : Nat} (hsrc : src < 64)
    (hm : m ∈ c.serialize_moves_list src A) :
    Move.flags m = 0 ∧ Move.target m < 64 ∧ c.targets.testBit (Move.target m) = true := by
  rcases serialize_mem_any.mp hm with ⟨t, ht, hbit, rfl⟩
  have h1 := and_bit hbit
  have h2 := and_bit h1.1
  rw [Move.flags_new hsrc ht (by norm_num), Move.target_new hsrc ht]
  exact ⟨rfl, ht, h2.2⟩

theorem king_serialize_fact {c : Board} {src A m : Nat} (hsrc : src < 64)
    (hm : m ∈ c.serialize_king_moves_list src A) :
    Move.flags m = 0 ∧ Move.target m < 64 ∧ c.targets.testBit (Move.target m) = true := by
  rcases serialize_king_mem_any.mp hm with ⟨t, ht, hbit, rfl⟩
  have h1 := (diff_bit ht hbit).1
  have h2 := and_bit h1
  rw [Move.flags_new hsrc ht (by norm_num), Move.target_new hsrc ht]
  exact ⟨rfl, ht, h2.2⟩

theorem knight_fact {c : Board} {m : Nat} (hm : m ∈ c.knight_move_list) :
    Move.flags m = 0 ∧ Move.target m < 64 ∧ c.targets.testBit (Move.target m) = true := by
  rw [Board.knight_move_list, List.mem_flatMap] at hm
  rcases hm with ⟨src, hsrc, hm⟩
  exact normal_serialize_fact (mem_squares.mp hsrc).1 hm

theorem bishop_fact {c : Board} {m : Nat} (hm : m ∈ c.bishop_move_list) :
    Move.flags m = 0 ∧ Move.target m < 64 ∧ c.targets.testBit (Move.target m) = true := by
  rw [Board.bishop_move_list, List.mem_append] at hm
  rcases hm with hm | hm <;>
    · rw [List.mem_flatMap] at hm
      rcases hm with ⟨src, hsrc, hm⟩
      exact normal_serialize_fact (mem_squares.mp hsrc).1 hm

theorem rook_fact {c : Board} {m : Nat} (hm : m ∈ c.rook_move_list) :
    Move.flags m = 0 ∧ Move.target m < 64 ∧ c.targets.testBit (Move.target m) = true := by
  rw [Board.rook_move_list, List.mem_append] at hm
  rcases hm with hm | hm <;>
    · rw [List.mem_flatMap] at hm
      rcases hm with ⟨src, hsrc, hm⟩
      exact normal_serialize_fact (mem_squares.mp hsrc).1 hm

theorem king_fact {c : Board} {m : Nat} (hm : m ∈ c.king_move_list)
    (hk : BitBoard.lsb (c.piece_color_bb 5 c.side_to_mv) < 64) :
    Move.flags m = 0 ∧ Move.target m < 64 ∧ c.targets.testBit (Move.target m) = true := by
  rw [Board.king_move_list] at hm
  exact king_serialize_fact hk hm

theorem castle_fact {c : Board} {m : Nat} (hm : m ∈ c.castle_move_list)
    (hk : BitBoard.lsb (c.piece_color_bb 5 c.side_to_mv) < 64) : Move.flags m = 1 := by
  rw [Board.castle_move_list, List.mem_append] at hm
  rcases hm with hm | hm <;>
    · rw [List.mem_ite_nil_right] at hm
      rcases hm with ⟨-, hm⟩
      rcases List.mem_singleton.mp hm with rfl
      exact Move.flags_new hk (rookSq_lt _ _) (by norm_num)

theorem pawn_noisy_fact {s : Board}
    {m : Nat} (hm : m ∈ Board.pawn_move_list s false true) :
    Move.flags m = 2 ∧ Move.promot m = 4 := by
  simp only [Board.pawn_move_list] at hm
  rcases pawn_push_mem.mp hm with ⟨p, hp, ⟨-, rfl⟩ | ⟨h0, -⟩⟩ | ⟨h0, -⟩
  · rcases mem_squares.mp hp with ⟨hp64, hpbit⟩
    have hrank := (and_bit hpbit).2
    have hsrc := promo_src_lt hp64 hrank
    exact ⟨Move.flags_promo hsrc hp64 (by norm_num),
      Move.promot_promo hsrc hp64 (by norm_num) (by norm_num)⟩
  · simp at h0
  · simp at h0

theorem pawn_quiet_fact {s : Board} {m : Nat}
    (hm : m ∈ Board.pawn_move_list s true false)
    (hpawn : s.piece_color_bb 0 s.side_to_mv < U64) :
    (Move.flags m = 0 ∧ Move.target m < 64 ∧ s.occupied.testBit (Move.target m) = false) ∨
      (Move.flags m = 2 ∧
        (Move.promot m = 1 ∨ Move.promot m = 3 ∨ Move.promot m = 2)) := by
  simp only [Board.pawn_move_list] at hm
  rcases pawn_push_mem.mp hm with
    ⟨p, hp, ⟨h0, -⟩ | ⟨-, h⟩⟩ | ⟨-, ⟨p, hp, heq⟩ | ⟨p, hp, heq⟩⟩
  · simp at h0
  · rcases mem_squares.mp hp with ⟨hp64, hpbit⟩
    have hrank := (and_bit hpbit).2
    have hsrc := promo_src_lt hp64 hrank
    rcases h with rfl | rfl | rfl
    · exact Or.inr ⟨Move.flags_promo hsrc hp64 (by norm_num),
        Or.inl (Move.promot_promo hsrc hp64 (by norm_num) (by norm_num))⟩
    · exact Or.inr ⟨Move.flags_promo hsrc hp64 (by norm_num),
        Or.inr (Or.inl (Move.promot_promo hsrc hp64 (by norm_num) (by norm_num)))⟩
    · exact Or.inr ⟨Move.flags_promo hsrc hp64 (by norm_num),
        Or.inr (Or.inr (Move.promot_promo hsrc hp64 (by norm_num) (by norm_num)))⟩
  · rcases mem_squares.mp hp with ⟨hp64, hpbit⟩
    rcases diff_bit hp64 hpbit with ⟨hX, -⟩
    rcases diff_bit hp64 hX with ⟨hTcm, hocc⟩
    have hT := (and_bit hTcm).1
    have hsrc := pawn_push_src_lt hpawn hp64 hT
    subst heq
    rw [Move.flags_new hsrc hp64 (by norm_num), Move.target_new hsrc hp64]
    exact Or.inl ⟨rfl, hp64, hocc⟩
  · rcases mem_squares.mp hp with ⟨hp64, hpbit⟩
    rcases diff_bit hp64 hpbit with ⟨hTcm, hocc⟩
    have hup := (and_bit hTcm).1
    have hsrc := double_src_lt hp64 hup
    subst heq
    rw [Move.flags_new hsrc hp64 (by norm_num), Move.target_new hsrc hp64]
    exact Or.inl ⟨rfl, hp64, hocc⟩

theorem gen_setup_pcb (b : Board) (p c : Nat) :
    b.gen_setup.piece_color_bb p c = b.piece_color_bb p c := rfl

theorem gen_setup_stm (b : Board) : b.gen_setup.side_to_mv = b.side_to_mv := rfl

theorem gen_setup_occ (b : Board) : b.gen_setup.occupied = b.occupied := rfl

theorem gen_setup_enemies (b : Board) : b.gen_setup.enemies = b.enemies := rfl

theorem quiet_shape {b : Board}
    (hking : BitBoard.lsb (b.piece_color_bb 5 b.side_to_mv) < 64)
    (hpawn : b.piece_color_bb 0 b.side_to_mv < U64) {m : Nat}
    (hm : m ∈ b.generate_quiet_moves) :
    (Move.flags m = 0 ∧ Move.target m < 64 ∧
        b.occupied.testBit (Move.target m) = false) ∨
      (Move.flags m = 2 ∧
        (Move.promot m = 1 ∨ Move.promot m = 3 ∨ Move.promot m = 2)) ∨
      Move.flags m = 1 := by
  rw [Board.generate_quiet_moves, mem_generate_moves, gen_targets_tf] at hm
  have hocc : ∀ t, t < 64 →
      (({ b.gen_setup with targets := compl64 b.gen_setup.occupied } : Board).targets).testBit
          t = true → b.occupied.testBit t = false := by
    intro t ht h
    rw [targets_upd, gen_setup_occ, testBit_compl64 ht] at h
    simpa using h
  rcases hm with hk | ⟨-, hp | hn | hb | hr | ⟨-, hc⟩⟩
  · have := king_fact hk hking
    exact Or.inl ⟨this.1, this.2.1, hocc _ this.2.1 this.2.2⟩
  · rcases pawn_quiet_fact hp hpawn with h | h
    · exact Or.inl h
    · exact Or.inr (Or.inl h)
  · have := knight_fact hn
    exact Or.inl ⟨this.1, this.2.1, hocc _ this.2.1 this.2.2⟩
  · have := bishop_fact hb
    exact Or.inl ⟨this.1, this.2.1, hocc _ this.2.1 this.2.2⟩
  · have := rook_fact hr
    exact Or.inl ⟨this.1, this.2.1, hocc _ this.2.1 this.2.2⟩
  · exact Or.inr (Or.inr (castle_fact hc hking))

theorem noisy_shape {b : Board}
    (hking : BitBoard.lsb (b.piece_color_bb 5 b.side_to_mv) < 64) {m : Nat}
    (hm : m ∈ b.generate_noisy_moves) :
    (Move.flags m = 0 ∧ Move.target m < 64 ∧
        b.enemies.testBit (Move.target m) = true) ∨
      (Move.flags m = 2 ∧ Move.promot m = 4) := by
  rw [Board.generate_noisy_moves, mem_generate_moves, gen_targets_ft] at hm
  have henb : ∀ t,
      (({ b.gen_setup with targets := b.gen_setup.enemies } : Board).targets).testBit t =
          true → b.enemies.testBit t = true := by
    intro t h
    rwa [targets_upd, gen_setup_enemies] at h
  rcases hm with hk | ⟨-, hp | hn | hb | hr | ⟨h0, -⟩⟩
  · have := king_fact hk hking
    exact Or.inl ⟨this.1, this.2.1, henb _ this.2.2⟩
  · exact Or.inr (pawn_noisy_fact hp)
  · have := knight_fact hn
    exact Or.inl ⟨this.1, this.2.1, henb _ this.2.2⟩
  · have := bishop_fact hb
    exact Or.inl ⟨this.1, this.2.1, henb _ this.2.2⟩
  · have := rook_fact hr
    exact Or.inl ⟨this.1, this.2.1, henb _ this.2.2⟩
  · simp at h0

theorem C4disjoint {b : Board}
    (hking : BitBoard.lsb (b.piece_color_bb 5 b.side_to_mv) < 64)
    (hpawn : b.piece_color_bb 0 b.side_to_mv < U64)
    (hsub : b.enemies &&& b.occupied = b.enemies) (m : Nat) :
    ¬(m ∈ b.generate_quiet_moves ∧ m ∈ b.generate_noisy_moves) := by
  rintro ⟨hq, hn⟩
  rcases quiet_shape hking hpawn hq with ⟨hf, ht, hocc⟩ | ⟨hf, hp⟩ | hf <;>
    rcases noisy_shape hking hn with ⟨hf2, ht2, hen⟩ | ⟨hf2, hp2⟩
  · have hbit : b.enemies.testBit (Move.target m) =
        (b.enemies &&& b.occupied).testBit (Move.target m) := by rw [hsub]
    rw [Nat.testBit_and, hocc, Bool.and_false] at hbit
    rw [hen] at hbit
    exact Bool.true_eq_false ▸ hbit.symm ▸ rfl
  · rw [hf] at hf2
    exact absurd hf2 (by norm_num)
  · rw [hf] at hf2
    exact absurd hf2 (by norm_num)
  · rcases hp with h | h | h <;> rw [hp2] at h <;> exact absurd h (by norm_num)
  · rw [hf] at hf2
    exact absurd hf2 (by norm_num)
  · rw [hf] at hf2
    exact absurd hf2 (by norm_num)

theorem lsbAux_cases : ∀ f b i, lsbAux f b i = 64 ∨ lsbAux f b i < i + f := by
  intro f
  induction f with
  | zero => intro b i; exact Or.inl rfl
  | succ f ih =>
    intro b i
    simp only [lsbAux]
    by_cases h : b.testBit i
    · rw [if_pos h]
      right
      omega
    · rw [if_neg h]
      rcases ih b (i + 1) with h1 | h1
      · exact Or.inl h1
      · right
        omega

theorem lsb_cases (X : Nat) : BitBoard.lsb X < 64 ∨ BitBoard.lsb X = 64 := by
  rcases lsbAux_cases 64 X 0 with h | h
  · exact Or.inr h
  · left
    simpa using h

theorem squares_zero : BitBoard.squares 0 = [] := rfl

theorem kingAttacks_none : kingAttacks 64 = 0 := rfl

theorem king_list_source {c : Board} {m : Nat} (hm : m ∈ c.king_move_list) :
    Move.source m = BitBoard.lsb (c.piece_color_bb 5 c.side_to_mv) := by
  rcases lsb_cases (c.piece_color_bb 5 c.side_to_mv) with hlt | he
  · rw [Board.king_move_list] at hm
    rcases serialize_king_mem_any.mp hm with ⟨t, ht, -, rfl⟩
    exact Move.source_new hlt
  · rw [Board.king_move_list, he] at hm
    rw [kingAttacks_none] at hm
    simp only [Board.serialize_king_moves_list, BitBoard.diff, Nat.zero_and, squares_zero,
      List.map_nil, List.not_mem_nil] at hm

theorem gen_setup_cn (b : Board) : b.gen_setup.check_nm = b.check_nm := rfl

theorem gen_setup_pcb_stm (b : Board) :
    b.gen_setup.piece_color_bb 5 b.gen_setup.side_to_mv =
      b.piece_color_bb 5 b.side_to_mv := rfl

theorem legal_double_check {b : Board} (h2 : ¬ b.check_nm < 2) {m : Nat}
    (hm : m ∈ b.generate_legal_moves) :
    Move.source m = BitBoard.lsb (b.piece_color_bb 5 b.side_to_mv) := by
  rw [Board.generate_legal_moves, mem_generate_moves] at hm
  rcases hm with hk | ⟨hlt, -⟩
  · have h1 := king_list_source hk
    exact h1
  · rw [gen_setup_cn] at hlt
    exact absurd hlt h2

theorem gcm_mask_empty {b : Board} (h : (b.generate_check_masks).check_nm = 2) :
    (b.generate_check_masks).check_mask = BitBoard.EMPTY := by
  simp only [Board.generate_check_masks] at h ⊢
  rw [if_pos h]

/-! ## Concrete positions used as evidence -/

/-- Build a mailbox from (square, `ColoredPiece`) pairs. -/
def mkMailbox (ps : List (Nat × Nat)) : List Nat :=
  ps.foldl (fun mb sp => mb.set sp.1 sp.2) (List.replicate 64 12)

/-- Build a board the way `Board::from(FEN)` receives it from
`FEN::from_str` (which always delivers the full castling-rights set). -/
def mkBoard (ps : List (Nat × Nat)) (stm : Nat) : Board :=
  Board.from_fen
    { position := mkMailbox ps
      side_to_move := stm
      castling_rights := 15
      en_pass_square := 64
      half_move_clock := 0
      full_move_count := 1 }

/-- The standard starting position's mailbox. -/
def startMailbox : List Nat :=
  [9, 7, 8, 10, 11, 8, 7, 9] ++ List.replicate 8 6 ++ List.replicate 32 12 ++
    List.replicate 8 0 ++ [3, 1, 2, 4, 5, 2, 1, 3]

/-- The standard starting position as a `Board`. -/
def startBoard : Board := Board.from_fen
  { position := startMailbox
    side_to_move := 0
    castling_rights := 15
    en_pass_square := 64
    half_move_clock := 0
    full_move_count := 1 }

/-- White pawn e4, black pawn d5, kings e1 and e8, White to move: the
pawn on e4 (square 36) can capture the enemy pawn on d5 (square 27). -/
def pawnCaptureBoard : Board := mkBoard [(36, 0), (27, 6), (60, 5), (4, 11)] 0

/-- Black pawn a2, black king e8, white king h1, Black to move: the pawn
on a2 (square 48) promotes on a1 (square 56). -/
def promoBoard : Board := mkBoard [(48, 6), (4, 11), (63, 5)] 1

/-- White rook a1 and king e1, black king e8, White to move. -/
def rookMoveBoard : Board := mkBoard [(56, 3), (60, 5), (4, 11)] 0

/-- White king e1 in double check from the black rook e8 and the black
bishop h4; black king a8. -/
def doubleCheckBoard : Board := mkBoard [(60, 5), (0, 11), (4, 9), (39, 8)] 0

/-- White king e1 and rook h1 with the black rook e7 giving check along
the e-file; black king e8.  The h-side castling path f1, g1 is empty and
unattacked. -/
def checkCastleBoard : Board := mkBoard [(60, 5), (63, 3), (4, 11), (12, 9)] 0

/-- Modelled from the spec: the full XOR-reduction the `hash` invariant
specifies — piece-square keys of every occupied square, side-to-move key
iff Black to move, en-passant key iff a target is set, and the
castling-rights key for the current rights.  Stated from the spec's
words to compare against the incrementally maintained `Board.hash`. -/
def spec_full_hash (b : Board) : Nat :=
  ((List.range 64).foldl
    (fun acc sq =>
      if b.piece_at sq ≠ 12 then acc ^^^ zobrist.piece_square_key (b.piece_at sq) sq
      else acc)
    0) ^^^
    (if b.side_to_mv = 1 then zobrist.side_to_move_key else 0) ^^^
    (if b.enp_target ≠ 64 then zobrist.en_passant_key b.enp_target else 0) ^^^
    zobrist.castling_rights_key b.castling_rights

/-- A FEN string whose castling field is not a subset of `KQkq` or `-`. -/
def junkCastlingFen : String := "rnbqkbnr/pppppppp/8/8/8/8/PPPPPPPP/RNBQKBNR w xyz - 0 1"

/-- A FEN string whose castling field is `-` (no rights). -/
def dashCastlingFen : String := "rnbqkbnr/pppppppp/8/8/8/8/PPPPPPPP/RNBQKBNR w - - 0 1"

/-- The castling rights produced by `FEN::from_str`, or `none` on a parse
error. -/
def parsedCastlingRights (s : List Char) : Option Nat :=
  match FEN.from_chars s with
  | .ok f => some f.castling_rights
  | .error _ => none

/-! ## The claims -/

set_option maxRecDepth 100000 in
/-- Claim C1: the specification requires that a pawn of the side to move
that is not on the line pin mask generates diagonal captures onto
enemy-occupied squares.  The generator emits no pawn captures at all:
in `pawnCaptureBoard` the unpinned white pawn on e4 (square 36) attacks
the black pawn on d5 (square 27), yet neither `generate_legal_moves` nor
`generate_noisy_moves` contains the capture move e4×d5. -/
theorem C1_pawn_capture_not_generated :
    pawnCaptureBoard.side_to_mv = 0 ∧
    Board.piece_at pawnCaptureBoard 36 = 0 ∧
    Board.piece_at pawnCaptureBoard 27 = 6 ∧
    ColoredPiece.colorOf (Board.piece_at pawnCaptureBoard 27) = 1 ∧
    (pawn_attacks 36 0).testBit 27 = true ∧
    pawnCaptureBoard.gen_setup.pin_mask_l = 0 ∧
    pawnCaptureBoard.gen_setup.pin_mask_d = 0 ∧
    Move.new 36 27 0 ∉ pawnCaptureBoard.generate_legal_moves ∧
    Move.new 36 27 0 ∉ pawnCaptureBoard.generate_noisy_moves := by decide

set_option maxRecDepth 100000 in
/-- Claim C2: a make/unmake round trip must restore the position field
for field.  It does not: in `promoBoard` the generated black queen
promotion a2a1q, after `make_move` then `undo_move`, leaves a white
bishop (code 2) on a2 where the black pawn (code 6) stood, because
`ColoredPiece::new` computes `color * 2 + piece` instead of
`color * 6 + piece`. -/
theorem C2_make_undo_roundtrip_fails :
    Move.new_with_promotion 48 56 4 ∈ promoBoard.generate_legal_moves ∧
    Board.piece_at promoBoard 48 = 6 ∧
    Board.piece_at ((promoBoard.make_move (Move.new_with_promotion 48 56 4)).undo_move)
      48 = 2 ∧
    ((promoBoard.make_move (Move.new_with_promotion 48 56 4)).undo_move).mailbox ≠
      promoBoard.mailbox := by decide

set_option maxRecDepth 100000 in
/-- Claim C3: the hash must always equal the XOR of the piece-square
keys, the side key, the en-passant key and the castling-rights key of
the current rights.  The invariant holds after FEN construction but
breaks on the first rights-changing move, because `make_move` updates
the castling rights without XORing any castling key: after Ra1b1 on
`rookMoveBoard` the stored hash differs from the spec's reduction. -/
theorem C3_hash_misses_castling_rights_update :
    spec_full_hash rookMoveBoard = rookMoveBoard.hash ∧
    Move.new 56 57 0 ∈ rookMoveBoard.generate_legal_moves ∧
    (rookMoveBoard.make_move (Move.new 56 57 0)).castling_rights ≠
      rookMoveBoard.castling_rights ∧
    spec_full_hash (rookMoveBoard.make_move (Move.new 56 57 0)) ≠
      (rookMoveBoard.make_move (Move.new 56 57 0)).hash := by decide

/-- Claim C4: on every position (side to move owning a king on the
board, pawn bitboard a `u64` value, enemies contained in the occupancy)
the quiet and noisy move lists partition the legal move list as sets:
their union is the legal set and they are disjoint. -/
theorem C4_quiet_noisy_partition (b : Board)
    (hking : BitBoard.lsb (b.piece_color_bb 5 b.side_to_mv) < 64)
    (hpawn : b.piece_color_bb 0 b.side_to_mv < U64)
    (hsub : b.enemies &&& b.occupied = b.enemies) :
    (∀ m, m ∈ b.generate_legal_moves ↔
        m ∈ b.generate_quiet_moves ∨ m ∈ b.generate_noisy_moves) ∧
      ∀ m, ¬(m ∈ b.generate_quiet_moves ∧ m ∈ b.generate_noisy_moves) :=
  ⟨fun m => C4equal m, fun m => C4disjoint hking hpawn hsub m⟩

set_option maxRecDepth 100000 in
/-- Witness for C4 at the standard starting position. -/
theorem C4_quiet_noisy_partition_witness :
    (BitBoard.lsb (startBoard.piece_color_bb 5 startBoard.side_to_mv) < 64 ∧
      startBoard.piece_color_bb 0 startBoard.side_to_mv < U64 ∧
      startBoard.enemies &&& startBoard.occupied = startBoard.enemies) ∧
    ((∀ m, m ∈ startBoard.generate_legal_moves ↔
        m ∈ startBoard.generate_quiet_moves ∨ m ∈ startBoard.generate_noisy_moves) ∧
      ∀ m, ¬(m ∈ startBoard.generate_quiet_moves ∧
        m ∈ startBoard.generate_noisy_moves)) :=
  ⟨⟨by decide, by decide, by decide⟩,
    C4_quiet_noisy_partition startBoard (by decide) (by decide) (by decide)⟩

/-- Claim C5: when the side to move's king is attacked by exactly two
pieces (`check_nm` = 2 as computed by `generate_check_masks`), the check
mask is the empty bitboard and every move of `generate_legal_moves` has
the king's square as its source. -/
theorem C5_double_check_only_king_moves (b : Board)
    (h : (b.generate_check_masks).check_nm = 2) :
    (b.generate_check_masks).check_mask = BitBoard.EMPTY ∧
    ∀ m ∈ (b.generate_check_masks).generate_legal_moves,
      Move.source m =
        BitBoard.lsb
          ((b.generate_check_masks).piece_color_bb 5
            (b.generate_check_masks).side_to_mv) :=
  ⟨gcm_mask_empty h,
    fun _ hm =>
      legal_double_check (by rw [h]; exact (by norm_num : ¬ (2 : Nat) < 2)) hm⟩

set_option maxRecDepth 100000 in
/-- Witness for C5 at the double-check position `doubleCheckBoard`. -/
theorem C5_double_check_only_king_moves_witness :
    (doubleCheckBoard.generate_check_masks).check_nm = 2 ∧
    ((doubleCheckBoard.generate_check_masks).check_mask = BitBoard.EMPTY ∧
      ∀ m ∈ (doubleCheckBoard.generate_check_masks).generate_legal_moves,
        Move.source m =
          BitBoard.lsb
            ((doubleCheckBoard.generate_check_masks).piece_color_bb 5
              (doubleCheckBoard.generate_check_masks).side_to_mv)) :=
  ⟨by decide, C5_double_check_only_king_moves doubleCheckBoard (by decide)⟩

set_option maxRecDepth 100000 in
/-- Claim C6: the spec says castling is only emitted when the king is
not in check.  `generate_castling_moves` never tests for check, and the
path test does not cover the king's own square: in `checkCastleBoard`
White is in check from the rook on e7 and the castle move e1h1 is still
produced by both `generate_legal_moves` and `generate_quiet_moves`.
(The noisy generator indeed never emits castle-flagged moves.) -/
theorem C6_castling_emitted_while_in_check :
    checkCastleBoard.is_check = true ∧
    Move.flags (Move.new 60 63 1) = 1 ∧
    Move.new 60 63 1 ∈ checkCastleBoard.generate_legal_moves ∧
    Move.new 60 63 1 ∈ checkCastleBoard.generate_quiet_moves ∧
    (∀ m ∈ checkCastleBoard.generate_noisy_moves, Move.flags m ≠ 1) := by decide

set_option maxRecDepth 100000 in
/-- Claim C7: `FEN::from_str` never reads the castling field: a FEN
whose castling field is the invalid `xyz` parses successfully, and a
FEN whose castling field is `-` (no rights) also yields the full rights
set 15, instead of the rights named by the field or a typed
`CastlingParseError`. -/
theorem C7_castling_field_ignored :
    parsedCastlingRights junkCastlingFen.toList = some 15 ∧
    parsedCastlingRights dashCastlingFen.toList = some 15 := by decide

set_option maxRecDepth 100000 in
/-- Claim C8: the FEN emitter is required to write the held rights as a
`KQkq` subset (or `-`), but the `Display` implementation prints the
literal placeholder `cas` as the third field (and `From<&Board>` stores
the constant `Rights::BA` instead of the board's rights). -/
theorem C8_castling_field_emitted_as_cas :
    startBoard.castling_rights = 15 ∧
    (FEN.from_board startBoard).castling_rights = castling.Rights.BA ∧
    (splitWs (FEN.displayChars (FEN.from_board startBoard))).getD 2 [] =
      ['c', 'a', 's'] := by decide

/-- Claim C9: move generation (all three entry points are
`generate_moves` instantiations, whose board result models the `&mut
self` state) leaves the mailbox, the piece and color bitboards, the side
to move, the ply count, the draw clock, the en-passant target, the
castling rights and the Zobrist hash unchanged. -/
theorem C9_generation_preserves_observable_state (b : Board) (GQ GN : Bool) :
    (b.generate_moves GQ GN).mailbox = b.mailbox ∧
    (b.generate_moves GQ GN).piece_bbs = b.piece_bbs ∧
    (b.generate_moves GQ GN).color_bbs = b.color_bbs ∧
    (b.generate_moves GQ GN).side_to_mv = b.side_to_mv ∧
    (b.generate_moves GQ GN).plys_count = b.plys_count ∧
    (b.generate_moves GQ GN).draw_clock = b.draw_clock ∧
    (b.generate_moves GQ GN).enp_target = b.enp_target ∧
    (b.generate_moves GQ GN).castling_rights = b.castling_rights ∧
    (b.generate_moves GQ GN).hash = b.hash :=
  ⟨rfl, rfl, rfl, rfl, rfl, rfl, rfl, rfl, rfl⟩

/-- Claim C10: `is_50_move_draw` returns true exactly when the draw
clock has reached 100 plies and the position is not checkmate (the side
to move is either not in check or still has a legal move); in
particular a checkmate with clock 100 is not a fifty-move draw while a
stalemate is. -/
theorem C10_fifty_move_draw_iff_not_mated (b : Board) :
    b.is_50_move_draw = true ↔ 100 ≤ b.draw_clock ∧ b.is_mated = false := by
  rw [Board.is_50_move_draw, Board.is_mated, Board.is_check]
  cases h1 : b.checkers == 0 <;> cases h2 : b.generate_legal_moves.isEmpty <;>
    simp [h1, h2]
